import Mathlib

/-!
Verification of the memento repository's core against its specification.

Shallow embedding of the relevant Rust sources:
* `src/src/pepoch/atomic.rs` — tagged persistent pointers (bit-field
  compose/decompose on a 64-bit word),
* `src/src/ds/comb.rs` — the combining lock and the recovery branch of
  `Combining::apply_op`,
* `src/evaluation/cas/src/pcas.rs` — single-word persistent CAS and the
  persistent multi-word CAS (`pmwcas_inner`),
* `src/crossbeam-persistency/crossbeam-epoch/src/internal.rs` — the
  persist set (`Local::push_persist`, flushing in `Local::unpin`),
  bag de-duplication (`Local::dedup_as_bags`) and bag collection
  (`SealedBag::is_expired`, `Global::collect`).

Machine integers (Rust `usize`, 64-bit) are embedded as `Nat` with
explicit `% 2^64` where wrap-around matters.
-/

namespace Memento

/-- `2^64`, the modulus of Rust's 64-bit `usize`. -/
def U64 : Nat := 2 ^ 64

/-- `usize::MAX = 2^64 - 1`. -/
def usizeMax : Nat := 2 ^ 64 - 1

/-- Rust `!x` (bitwise complement) on a 64-bit `usize`. -/
def not64 (x : Nat) : Nat := usizeMax ^^^ x

/-- Rust `u64::rotate_right(x, n)`. -/
def rotr (x n : Nat) : Nat :=
  ((x % U64) >>> (n % 64)) ||| (((x % U64) <<< ((64 - n % 64) % 64)) % U64)

/-- Rust `u64::rotate_left(x, n)`. -/
def rotl (x n : Nat) : Nat :=
  (((x % U64) <<< (n % 64)) % U64) ||| ((x % U64) >>> ((64 - n % 64) % 64))

/-- The repository's `impl_left_bits!` mask: `nr` one-bits starting at
position `pos` counted from the most-significant bit, i.e.
`(usize::MAX >> pos) ^ (usize::MAX >> (pos + nr))`.  The resulting values
match the binary mask literals documented at src/src/pepoch/atomic.rs:119-139. -/
def left_bits (pos nr : Nat) : Nat := (usizeMax >>> pos) ^^^ (usizeMax >>> (pos + nr))

/-- Generic bit-field extraction `(data & mask).rotate_left(pos + nr)`:
the shape shared by the components of `decompose_tag`
(src/src/pepoch/atomic.rs:193-202) and `decompose_aux_bit`
(src/src/ds/comb.rs:348-353). -/
def fieldGet (pos nr data : Nat) : Nat := rotl (data &&& left_bits pos nr) (pos + nr)

/-- Generic bit-field update
`(mask & v.rotate_right(pos + nr)) | (!mask & data)`: the shape shared by
`compose_aux_bit`, `compose_desc_bit`, `compose_tid`, `compose_high_tag`
(src/src/pepoch/atomic.rs:164-190) and the combining lock's
`compose_aux_bit` (src/src/ds/comb.rs:342-345). -/
def fieldSet (pos nr v data : Nat) : Nat :=
  (left_bits pos nr &&& rotr v (pos + nr)) ||| (not64 (left_bits pos nr) &&& data)

-- Field positions from src/src/pepoch/atomic.rs:119-140.
def POS_AUX_BITS : Nat := 0
def NR_AUX_BITS : Nat := 1
def POS_DESC_BITS : Nat := POS_AUX_BITS + NR_AUX_BITS
def NR_DESC_BITS : Nat := 1
def POS_TID_BITS : Nat := POS_DESC_BITS + NR_DESC_BITS
def NR_TID_BITS : Nat := 9
def POS_HIGH_BITS : Nat := POS_TID_BITS + NR_TID_BITS
def NR_HIGH_BITS : Nat := 11

/-- `low_bits::<T>() = (1 << T::ALIGN.trailing_zeros()) - 1`
(src/src/pepoch/atomic.rs:153-156), parameterised by the alignment
exponent `a = T::ALIGN.trailing_zeros()`. -/
def low_bits (a : Nat) : Nat := (1 <<< a) - 1

/-- `compose_tag` (src/src/pepoch/atomic.rs:162-165):
`(data & !low_bits) | (ltag & low_bits)`. -/
def compose_tag (a data ltag : Nat) : Nat :=
  (data &&& not64 (low_bits a)) ||| (ltag &&& low_bits a)

/-- `compose_tid` (src/src/pepoch/atomic.rs:167-170). -/
def compose_tid (tid data : Nat) : Nat := fieldSet POS_TID_BITS NR_TID_BITS tid data

/-- `compose_high_tag` (src/src/pepoch/atomic.rs:172-175). -/
def compose_high_tag (htag data : Nat) : Nat := fieldSet POS_HIGH_BITS NR_HIGH_BITS htag data

/-- `compose_desc_bit` (src/src/pepoch/atomic.rs:177-181). -/
def compose_desc_bit (descBit data : Nat) : Nat := fieldSet POS_DESC_BITS NR_DESC_BITS descBit data

/-- `compose_aux_bit` (src/src/pepoch/atomic.rs:183-187). -/
def compose_aux_bit (auxBit data : Nat) : Nat := fieldSet POS_AUX_BITS NR_AUX_BITS auxBit data

/-- The offset component of `decompose_tag`
(src/src/pepoch/atomic.rs:198): `data & !aux & !desc & !tid & !high & !low`. -/
def offGet (a data : Nat) : Nat :=
  data &&& not64 (left_bits POS_AUX_BITS NR_AUX_BITS)
       &&& not64 (left_bits POS_DESC_BITS NR_DESC_BITS)
       &&& not64 (left_bits POS_TID_BITS NR_TID_BITS)
       &&& not64 (left_bits POS_HIGH_BITS NR_HIGH_BITS)
       &&& not64 (low_bits a)

/-- `decompose_tag` (src/src/pepoch/atomic.rs:191-202): returns
`(aux, desc, tid, high_tag, offset, low_tag)`. -/
def decompose_tag (a data : Nat) : Nat × Nat × Nat × Nat × Nat × Nat :=
  (fieldGet POS_AUX_BITS NR_AUX_BITS data,
   fieldGet POS_DESC_BITS NR_DESC_BITS data,
   fieldGet POS_TID_BITS NR_TID_BITS data,
   fieldGet POS_HIGH_BITS NR_HIGH_BITS data,
   offGet a data,
   data &&& low_bits a)

/-- `PShared::tag` (src/src/pepoch/atomic.rs:1801-1804): the low-tag
component of `decompose_tag`. -/
def tagOf (a data : Nat) : Nat := data &&& low_bits a

/-- `PShared::high_tag` (src/src/pepoch/atomic.rs:1824-1827). -/
def high_tagOf (data : Nat) : Nat := fieldGet POS_HIGH_BITS NR_HIGH_BITS data

/-- `PShared::tid` (src/src/pepoch/atomic.rs:1818-1821). -/
def tidOf (data : Nat) : Nat := fieldGet POS_TID_BITS NR_TID_BITS data

/-- `PShared::aux_bit` (src/src/pepoch/atomic.rs:1806-1809). -/
def aux_bitOf (data : Nat) : Nat := fieldGet POS_AUX_BITS NR_AUX_BITS data

/-- `PShared::desc_bit` (src/src/pepoch/atomic.rs:1812-1815). -/
def desc_bitOf (data : Nat) : Nat := fieldGet POS_DESC_BITS NR_DESC_BITS data

/-- The offset component returned by `decompose_tag`, as read by
`Pointable::deref` callers (src/src/pepoch/atomic.rs:198). -/
def offsetOf (a data : Nat) : Nat := offGet a data

namespace CombLock

/-!
The combining lock (src/src/ds/comb.rs:327-415, module `combining_lock`):
a 64-bit word packing a 55-bit state pointer (MSBs) and a 9-bit owner tid
(LSBs).  The lock word is embedded as a `Nat`; each operation is given
single-step sequential semantics (the load and the following
compare-exchange of `try_lock` observe the same word, as no interfering
thread is modelled), returning its result together with the new lock word.
-/

def POS_AUX_BITS : Nat := 0
def NR_AUX_BITS : Nat := 55

/-- `compose_aux_bit` (src/src/ds/comb.rs:342-345). -/
def compose_aux_bit (aux data : Nat) : Nat := fieldSet POS_AUX_BITS NR_AUX_BITS aux data

/-- `decompose_aux_bit` (src/src/ds/comb.rs:347-353): `(ptr, tid)`. -/
def decompose_aux_bit (data : Nat) : Nat × Nat :=
  (fieldGet POS_AUX_BITS NR_AUX_BITS data,
   not64 (left_bits POS_AUX_BITS NR_AUX_BITS) &&& data)

def PTR_NULL : Nat := 0
def RELEASED : Nat := 0

/-- `CombiningLock::is_owner` (src/src/ds/comb.rs:399-404). -/
def is_owner (inner tid : Nat) : Bool := tid == (decompose_aux_bit inner).2

/-- `CombiningLock::try_lock` (src/src/ds/comb.rs:365-390), sequential
single-step semantics: returns `Ok ()` or `Err (ptr, tid)` plus the new
lock word. -/
def try_lock (inner tid : Nat) : Except (Nat × Nat) Unit × Nat :=
  let current := inner
  let p := decompose_aux_bit current
  if is_owner inner tid then (Except.ok (), inner)
  else if p.2 ≠ RELEASED then (Except.error p, inner)
  else if inner = current then (Except.ok (), compose_aux_bit PTR_NULL tid)
  else (Except.error p, inner)

/-- `CombiningLock::peek` (src/src/ds/comb.rs:392-397). -/
def peek (inner : Nat) : Nat × Nat := decompose_aux_bit inner

/-- `CombiningLock::unlock` (src/src/ds/comb.rs:407-415): the new lock
word stored by the owner. -/
def unlock (ptr : Nat) : Nat := compose_aux_bit ptr RELEASED

end CombLock

namespace Comb

/-!
The recovery branch of `Combining::apply_op` (src/src/ds/comb.rs:153-205).
When `handle.rec` is true the code loads the latest published state and
decides between returning a recorded value and re-entering the normal
protocol.  The decision is embedded as a function of the loaded values:
`activate` (the checkpointed activate), `deactivate` (the latest state's
`deactivate[tid]`), `reqActivate` (`s.request[tid].activate`), `isOwner`
(`s.lock.is_owner(tid)`), and `stateRetval` (`latest_state.return_value[tid]`).
`continueNormal` stands for the fall-through path that clears `rec` and
executes the register-and-combine protocol.
-/

inductive RecResult where
  | peekRet
  | stateRet (v : Nat)
  | continueNormal
deriving DecidableEq

/-- The `handle.rec` branch of `Combining::apply_op`
(src/src/ds/comb.rs:160-178). -/
def apply_op_rec (activate deactivate reqActivate : Nat) (isOwner : Bool)
    (stateRetval : Nat) : RecResult :=
  if activate < deactivate then .peekRet
  else if activate == deactivate && !isOwner then .stateRet stateRetval
  else if activate < reqActivate then .peekRet
  else .continueNormal

end Comb

namespace Pcas

/-!
Embedding of src/evaluation/cas/src/pcas.rs.  The single target word
(`PAtomic<Node>`) is a `Nat`; `a` is `Node::ALIGN.trailing_zeros()` (the
`Node` type of the cas evaluation crate is declared outside src/, so its
alignment stays a parameter).  Sequential semantics: each function returns
its result together with the new word, and a compare-exchange observes the
word the function was given.
-/

def DIRTY_FLAG : Nat := 1
def PMWCAS_FLAG : Nat := 2
def RDCSS_FLAG : Nat := 4

/-- `persist` (src/evaluation/cas/src/pcas.rs:94-104): flush the word,
then compare-exchange `value` to `value.with_tag(0)`.  Takes the current
word `mem` and returns the new word. -/
def persistWord (a mem value : Nat) : Nat :=
  if mem = value then compose_tag a value 0 else mem

/-- Result of `pcas_read`: the returned `PShared`, whether a cache-line
flush was issued, and the new word. -/
structure ReadResult where
  value : Nat
  flushed : Bool
  word : Nat
deriving DecidableEq

/-- `pcas_read` (src/evaluation/cas/src/pcas.rs:68-74). -/
def pcas_read (a word : Nat) : ReadResult :=
  if tagOf a word &&& DIRTY_FLAG ≠ 0 then
    { value := compose_tag a word 0, flushed := true, word := persistWord a word word }
  else
    { value := compose_tag a word 0, flushed := false, word := word }

/-- `persistent_cas` (src/evaluation/cas/src/pcas.rs:76-91): help-read,
then compare-exchange `old` against `new.with_tag(DIRTY_FLAG)`.  Returns
`Ok` (previous value) or `Err` (current value), plus the new word. -/
def persistent_cas (a word old new : Nat) : Except Nat Nat × Nat :=
  let r := pcas_read a word
  let w := r.word
  if w = old then (Except.ok w, compose_tag a new DIRTY_FLAG)
  else (Except.error w, w)

/-!
Embedding of the persistent multi-word CAS of the same file
(src/evaluation/cas/src/pcas.rs:106-320).  A single `PMwCasDescriptor`
and its `WordDescriptor`s live in the pool; target words are indexed by
the pool offset of their `PAtomic`.  `aDesc = 3` is the alignment
exponent of `PMwCasDescriptor` and `WordDescriptor` (both have alignment
8, being built from `usize`-sized fields).  `base` is the pool's mapped
base address: `complete_install` compares against the *absolute* address
of the word descriptor (`wd as *const _ as usize = base + wd.off`),
whereas `install_mwcas_descriptor` installs the *pool-relative* offset
(`wd.as_pptr(pool).into_offset() = wd.off`).  All compare-exchanges are
run sequentially (no interfering thread), and unreachable dereferences
of foreign descriptors yield `none`.
-/

def UNDECIDED : Nat := 0
def SUCCEEDED : Nat := 2
def FAILED : Nat := 4

def aDesc : Nat := 3

/-- `WordDescriptor` (src/evaluation/cas/src/pcas.rs:108-114), together
with its own pool offset `off` (`wd.as_pptr(pool)`). -/
structure Word where
  off : Nat
  address : Nat
  old_value : Nat
  new_value : Nat
  mwcas_descriptor : Nat
deriving DecidableEq

/-- `PMwCasDescriptor` (src/evaluation/cas/src/pcas.rs:116-120) with its
pool offset `off`; its mutable `status` lives in `MwState`. -/
structure Desc where
  off : Nat
  words : List Word
deriving DecidableEq

/-- Mutable state: contents of the target words (indexed by the pool
offset of their `PAtomic`) and the descriptor's `status` field. -/
structure MwState where
  mem : Nat → Nat
  status : Nat

/-- Sequential `compare_exchange` on a target word: returns the previous
value and the new state (both the `Ok` and the `Err` arm of the source
extract exactly this previous value). -/
def casW (st : MwState) (addr expect nv : Nat) : Nat × MwState :=
  let cur := st.mem addr
  if cur = expect then
    (cur, { st with mem := fun x => if x = addr then nv else st.mem x })
  else (cur, st)

/-- `persist` (src/evaluation/cas/src/pcas.rs:94-104) applied to a target
word of the multi-word CAS. -/
def persistW (st : MwState) (addr value : Nat) : MwState :=
  (casW st addr value (compose_tag aDesc value 0)).2

def envBase : Nat := 0

/-- `complete_install` (src/evaluation/cas/src/pcas.rs:310-320). -/
def complete_install (base : Nat) (st : MwState) (wd : Word) : MwState :=
  let desc := wd.mwcas_descriptor
  let ptr := compose_high_tag (PMWCAS_FLAG ||| DIRTY_FLAG) desc
  let u := st.status == UNDECIDED
  let target := wd.address
  let old := compose_high_tag RDCSS_FLAG (base + wd.off)
  let nv := if u then ptr else wd.old_value
  (casW st target old nv).2

/-- The retry loop of `install_mwcas_descriptor`
(src/evaluation/cas/src/pcas.rs:288-303), with fuel for termination. -/
def install_loop (wds : List Word) (base : Nat) (wd : Word) (ptr : Nat) :
    Nat → MwState → Option (Nat × MwState)
  | 0, _ => none
  | fuel + 1, st =>
    let r := casW st wd.address wd.old_value ptr
    if high_tagOf r.1 &&& RDCSS_FLAG == 0 then some (r.1, r.2)
    else
      match wds.find? (fun w => w.off == offsetOf aDesc r.1) with
      | none => none
      | some cur => install_loop wds base wd ptr fuel (complete_install base r.2 cur)

/-- `install_mwcas_descriptor` (src/evaluation/cas/src/pcas.rs:282-308). -/
def install_mwcas_descriptor (wds : List Word) (base fuel : Nat) (st : MwState)
    (wd : Word) : Option (Nat × MwState) :=
  let ptr := compose_high_tag RDCSS_FLAG wd.off
  match install_loop wds base wd ptr fuel st with
  | none => none
  | some (val, st1) =>
    if val == wd.old_value then some (val, complete_install base st1 wd)
    else some (val, st1)

mutual

/-- Phase 1 of `pmwcas_inner` (src/evaluation/cas/src/pcas.rs:200-224,
the `'out` loop): returns the phase-1 status (`SUCCEEDED` or `FAILED`)
and the new state.  Helping a clashed multi-word CAS re-enters
`pmwcas_inner` on the same descriptor (the only one in the model). -/
def phase1 (base : Nat) (md : Desc) : Nat → List Word → MwState → Option (Nat × MwState)
  | 0, _, _ => none
  | _ + 1, [], st => some (SUCCEEDED, st)
  | fuel + 1, w :: rest, st =>
    match install_mwcas_descriptor md.words base fuel st w with
    | none => none
    | some (rval, st1) =>
      if rval == w.old_value then phase1 base md fuel rest st1
      else if high_tagOf rval &&& PMWCAS_FLAG ≠ 0 then
        let st2 := if high_tagOf rval &&& DIRTY_FLAG ≠ 0 then persistW st1 w.address rval else st1
        if offsetOf aDesc rval == md.off then
          match pmwcas_inner base md fuel st2 with
          | none => none
          | some p => phase1 base md fuel (w :: rest) p.2
        else none
      else some (FAILED, st1)

/-- `pmwcas_inner` (src/evaluation/cas/src/pcas.rs:196-281).  Note that
`ok_or!(md.status.compare_exchange(UNDECIDED, st | DIRTY_FLAG, ..), e, e)`
yields the *previous* value of `status` in both the `Ok` and the `Err`
case, so `cur_st` is the pre-CAS status. -/
def pmwcas_inner (base : Nat) (md : Desc) : Nat → MwState → Option (Bool × MwState)
  | 0, _ => none
  | fuel + 1, st =>
    match phase1 base md fuel md.words st with
    | none => none
    | some (stv, st1) =>
      let md_ptr := md.off
      let st2 :=
        if stv == SUCCEEDED then
          md.words.foldl (fun acc w =>
            persistW acc w.address (compose_high_tag (PMWCAS_FLAG ||| DIRTY_FLAG) md_ptr)) st1
        else st1
      let prev := st2.status
      let st3 := if prev == UNDECIDED then { st2 with status := stv ||| DIRTY_FLAG } else st2
      let curAndSt :=
        if prev &&& DIRTY_FLAG ≠ 0 then
          (prev &&& not64 DIRTY_FLAG, { st3 with status := prev &&& not64 DIRTY_FLAG })
        else (prev, st3)
      let cur_st := curAndSt.1
      let st5 := md.words.foldl (fun acc w =>
        let v := if cur_st == SUCCEEDED then w.new_value else w.old_value
        let expected := compose_high_tag (PMWCAS_FLAG ||| DIRTY_FLAG) md_ptr
        let r := casW acc w.address expected (compose_high_tag DIRTY_FLAG v)
        let acc2 :=
          if r.1 == compose_high_tag PMWCAS_FLAG md_ptr then (casW r.2 w.address r.1 v).2
          else r.2
        persistW acc2 w.address v) curAndSt.2
      some (cur_st == SUCCEEDED, st5)

end

end Pcas

namespace EpochInternal

/-!
Embedding of src/crossbeam-persistency/crossbeam-epoch/src/internal.rs.
`Deferred` (crossbeam's deferred.rs is not under src/) is modelled from
the spec's Bag data model, `{function, key?, arg}`: only the optional
`key` is inspected by the embedded code, and `id` stands for the rest of
the record.
-/

structure Deferred where
  key : Option Nat
  id : Nat
deriving DecidableEq

/-- `MAX_OBJECTS` for normal (non-sanitizer) builds
(src/crossbeam-persistency/crossbeam-epoch/src/internal.rs:59-61). -/
def MAX_OBJECTS : Nat := 40

/-- `Vec::dedup_by`'s run scan: `b` is the previously retained element;
an element `a` with `same a b` true is removed, otherwise it is retained
and becomes the new `b`. -/
def dedup_run (same : Deferred → Deferred → Bool) : Deferred → List Deferred → List Deferred
  | _, [] => []
  | b, a :: rest => if same a b then dedup_run same b rest else a :: dedup_run same a rest

/-- `Vec::dedup_by` (removes consecutive duplicates, keeping the first of
each run). -/
def dedup_by (same : Deferred → Deferred → Bool) : List Deferred → List Deferred
  | [] => []
  | x :: xs => x :: dedup_run same x xs

/-- The `same_bucket` closure of `Local::dedup_as_bags`
(src/crossbeam-persistency/crossbeam-epoch/src/internal.rs:681-686):
equal `Some` keys. -/
def same_key (a b : Deferred) : Bool :=
  match a.key, b.key with
  | some x, some y => x == y
  | _, _ => false

/-- The slicing loop of `Local::dedup_as_bags`
(src/crossbeam-persistency/crossbeam-epoch/src/internal.rs:688-703):
pop deferreds from the end of the vec (hence the caller passes the
reversed list), pushing them into fixed-capacity bags. -/
def seal_loop : List Deferred → List Deferred → List (List Deferred) → List (List Deferred)
  | [], new, bags => if new.isEmpty then bags else bags ++ [new]
  | d :: rest, new, bags =>
    if new.length < MAX_OBJECTS then seal_loop rest (new ++ [d]) bags
    else seal_loop rest [d] (bags ++ [new])

/-- `Local::dedup_as_bags`
(src/crossbeam-persistency/crossbeam-epoch/src/internal.rs:680-705). -/
def dedup_as_bags (bag : List Deferred) : List (List Deferred) :=
  seal_loop (dedup_by same_key bag).reverse [] []

/-- `Local::push_persist`
(src/crossbeam-persistency/crossbeam-epoch/src/internal.rs:707-717):
`binary_search_by_key(&ptr, ..)` on the ptr-sorted vec inserts `(ptr,len)`
at the sorted position only when no entry with that ptr exists, here as
sorted-list insertion. -/
def push_persist : List (Nat × Nat) → Nat → Nat → List (Nat × Nat)
  | [], p, n => [(p, n)]
  | (q, m) :: rest, p, n =>
    if p < q then (p, n) :: (q, m) :: rest
    else if p = q then (q, m) :: rest
    else (q, m) :: push_persist rest p n

/-- Low-level persistence events. -/
inductive Ev where
  | persistEv (ptr len : Nat)
  | sfenceEv
deriving DecidableEq

/-- The flush loop of `Local::unpin`
(src/crossbeam-persistency/crossbeam-epoch/src/internal.rs:560-566):
`persist(ptr, len); sfence()` for every entry of the persist set. -/
def unpin_flush (v : List (Nat × Nat)) : List Ev :=
  v.flatMap fun pl => [Ev.persistEv pl.1 pl.2, Ev.sfenceEv]

/-- The persist set after `Local::unpin`
(src/crossbeam-persistency/crossbeam-epoch/src/internal.rs:544-574): the
code only iterates the vec; no statement clears it. -/
def unpin_persist_set (v : List (Nat × Nat)) : List (Nat × Nat) := v

/-- Modelled from the spec: `Epoch::wrapping_sub` lives in crossbeam's
epoch.rs, which is not under src/.  Spec §3 (Epoch): an epoch `e1` is
≥2 ahead of `e2` when `e1 − e2 mod 2^62 ≥ 2`; epochs are 62-bit
counters. -/
def wrapping_sub (e1 e2 : Nat) : Nat := (2 ^ 62 + e1 - e2) % 2 ^ 62

/-- `SealedBag::is_expired`
(src/crossbeam-persistency/crossbeam-epoch/src/internal.rs:204-210):
`global_epoch.wrapping_sub(self.epoch) >= 2`. -/
def is_expired (globalEpoch sealedEpoch : Nat) : Bool :=
  2 ≤ wrapping_sub globalEpoch sealedEpoch

/-- A sealed bag: its sealing epoch and an identifier for its contents. -/
structure SealedBag where
  epoch : Nat
  bagId : Nat
deriving DecidableEq

/-- `Global::COLLECT_STEPS`
(src/crossbeam-persistency/crossbeam-epoch/src/internal.rs:226). -/
def COLLECT_STEPS : Nat := 8

/-- The pop loop of `Global::collect`
(src/crossbeam-persistency/crossbeam-epoch/src/internal.rs:256-275):
up to `steps` times, `try_pop_if is_expired` pops the queue head when it
is expired and stops otherwise.  Returns (dropped bags, remaining queue). -/
def collect_loop (globalEpoch : Nat) : Nat → List SealedBag → List SealedBag × List SealedBag
  | 0, q => ([], q)
  | _ + 1, [] => ([], [])
  | steps + 1, sb :: rest =>
    if is_expired globalEpoch sb.epoch then
      let p := collect_loop globalEpoch steps rest
      (sb :: p.1, p.2)
    else ([], sb :: rest)

/-- `Global::collect` in a normal build (`steps = COLLECT_STEPS`), after
`try_advance` has returned `globalEpoch`. -/
def collect (globalEpoch : Nat) (q : List SealedBag) : List SealedBag × List SealedBag :=
  collect_loop globalEpoch COLLECT_STEPS q

end EpochInternal

namespace Pcas

/-- A concrete single-word PMwCAS input: the word descriptor at pool
offset 2000 targets the word at offset 100, swinging old 5 to new 9,
with back-pointer to the descriptor at offset 1000. -/
def bugWord : Word :=
  { off := 2000, address := 100, old_value := 5, new_value := 9, mwcas_descriptor := 1000 }

/-- The concrete descriptor for the failing input. -/
def bugDesc : Desc := { off := 1000, words := [bugWord] }

/-- Initial state for the failing input: the target word holds the old
value 5 and the descriptor status is `UNDECIDED`. -/
def bugState : MwState := { mem := fun x => if x = 100 then 5 else 0, status := UNDECIDED }

end Pcas

/-! ### Bit-level toolkit and theorems for the tagged-pointer claims -/

theorem U64_pos : 0 < U64 := by unfold U64; positivity

theorem mod_U64_lt (x : Nat) : x % U64 < 2 ^ 64 := Nat.mod_lt x U64_pos

theorem testBit_usizeMax (i : Nat) : usizeMax.testBit i = decide (i < 64) := by
  unfold usizeMax; exact Nat.testBit_two_pow_sub_one 64 i

theorem testBit_false_ge {x n i : Nat} (h : x < 2 ^ n) (hi : n ≤ i) : x.testBit i = false :=
  Nat.testBit_eq_false_of_lt (lt_of_lt_of_le h (Nat.pow_le_pow_right (by norm_num) hi))

theorem testBit_mod_U64 (x i : Nat) : (x % U64).testBit i = (decide (i < 64) && x.testBit i) := by
  unfold U64; exact Nat.testBit_mod_two_pow x 64 i

theorem testBit_low_bits (a i : Nat) : (low_bits a).testBit i = decide (i < a) := by
  unfold low_bits
  rw [Nat.shiftLeft_eq, one_mul]
  exact Nat.testBit_two_pow_sub_one a i

theorem low_bits_lt {a : Nat} (h : a ≤ 64) : low_bits a < U64 := by
  unfold low_bits U64
  rw [Nat.shiftLeft_eq, one_mul]
  have h1 : 2 ^ a ≤ 2 ^ 64 := Nat.pow_le_pow_right (by norm_num) h
  have h2 : 0 < 2 ^ a := Nat.pos_pow_of_pos a (by norm_num)
  omega

theorem usizeMax_lt : usizeMax < U64 := by
  unfold usizeMax U64
  have : 0 < 2 ^ 64 := Nat.pos_pow_of_pos 64 (by norm_num)
  omega

theorem shiftRight_lt_U64 {x : Nat} (h : x < U64) (n : Nat) : x >>> n < U64 :=
  lt_of_le_of_lt (by rw [Nat.shiftRight_eq_div_pow]; exact Nat.div_le_self _ _) h

theorem left_bits_lt (pos nr : Nat) : left_bits pos nr < U64 :=
  Nat.xor_lt_two_pow (shiftRight_lt_U64 usizeMax_lt pos) (shiftRight_lt_U64 usizeMax_lt (pos + nr))

theorem not64_lt {x : Nat} (h : x < U64) : not64 x < U64 := Nat.xor_lt_two_pow usizeMax_lt h

theorem rotr_lt (x n : Nat) : rotr x n < U64 :=
  Nat.or_lt_two_pow (shiftRight_lt_U64 (mod_U64_lt x) _) (mod_U64_lt _)

theorem rotl_lt (x n : Nat) : rotl x n < U64 :=
  Nat.or_lt_two_pow (mod_U64_lt _) (shiftRight_lt_U64 (mod_U64_lt x) _)

theorem fieldGet_lt (pos nr data : Nat) : fieldGet pos nr data < U64 := rotl_lt _ _

theorem fieldSet_lt (pos nr v data : Nat) : fieldSet pos nr v data < U64 :=
  Nat.or_lt_two_pow (lt_of_le_of_lt Nat.and_le_left (left_bits_lt pos nr))
    (lt_of_le_of_lt Nat.and_le_left (not64_lt (left_bits_lt pos nr)))

theorem compose_tag_lt {a : Nat} (ha : a ≤ 64) (data ltag : Nat) : compose_tag a data ltag < U64 :=
  Nat.or_lt_two_pow (lt_of_le_of_lt Nat.and_le_right (not64_lt (low_bits_lt ha)))
    (lt_of_le_of_lt Nat.and_le_right (low_bits_lt ha))

theorem testBit_left_bits {pos nr : Nat} (h : pos + nr ≤ 64) (i : Nat) :
    (left_bits pos nr).testBit i = decide (64 - pos - nr ≤ i ∧ i < 64 - pos) := by
  unfold left_bits
  rw [Nat.testBit_xor, Nat.testBit_shiftRight, Nat.testBit_shiftRight,
    testBit_usizeMax, testBit_usizeMax]
  by_cases hA : pos + i < 64 <;> by_cases hB : pos + nr + i < 64 <;>
    simp [hA, hB] <;> omega

theorem testBit_not64 (x : Nat) {i : Nat} (hi : i < 64) :
    (not64 x).testBit i = ! x.testBit i := by
  unfold not64
  rw [Nat.testBit_xor, testBit_usizeMax]
  simp [hi]

theorem testBit_rotr (x n : Nat) {i : Nat} (hi : i < 64) :
    (rotr x n).testBit i = (x % U64).testBit ((i + n % 64) % 64) := by
  have hs : n % 64 < 64 := Nat.mod_lt _ (by norm_num)
  unfold rotr
  simp only [Nat.testBit_lor, Nat.testBit_shiftRight, testBit_mod_U64, Nat.testBit_shiftLeft]
  by_cases hz : n % 64 = 0
  · rw [hz]
    simp [Nat.mod_eq_of_lt hi, hi]
  · have ht : (64 - n % 64) % 64 = 64 - n % 64 := Nat.mod_eq_of_lt (by omega)
    rw [ht]
    by_cases h2 : i + n % 64 < 64
    · have hmod : (i + n % 64) % 64 = i + n % 64 := Nat.mod_eq_of_lt h2
      rw [hmod]
      have hcong : n % 64 + i = i + n % 64 := by omega
      simp [hcong, show ¬ (64 - n % 64 ≤ i) by omega, h2, hi]
    · have hmod : (i + n % 64) % 64 = i - (64 - n % 64) := by omega
      rw [hmod]
      simp [show ¬ (n % 64 + i < 64) by omega, show 64 - n % 64 ≤ i by omega,
        show i - (64 - n % 64) < 64 by omega, hi]

theorem testBit_rotl (x n : Nat) {i : Nat} (hi : i < 64) :
    (rotl x n).testBit i = (x % U64).testBit ((i + (64 - n % 64) % 64) % 64) := by
  have hs : n % 64 < 64 := Nat.mod_lt _ (by norm_num)
  unfold rotl
  simp only [Nat.testBit_lor, Nat.testBit_shiftRight, testBit_mod_U64, Nat.testBit_shiftLeft]
  by_cases hz : n % 64 = 0
  · rw [hz]
    simp [Nat.mod_eq_of_lt hi, hi]
  · have ht : (64 - n % 64) % 64 = 64 - n % 64 := Nat.mod_eq_of_lt (by omega)
    rw [ht]
    by_cases h2 : i < n % 64
    · have hmod : (i + (64 - n % 64)) % 64 = i + (64 - n % 64) := Nat.mod_eq_of_lt (by omega)
      rw [hmod]
      have hcong : 64 - n % 64 + i = i + (64 - n % 64) := by omega
      simp [hcong, show ¬ (n % 64 ≤ i) by omega, show i + (64 - n % 64) < 64 by omega, hi]
    · have hmod : (i + (64 - n % 64)) % 64 = i - n % 64 := by omega
      rw [hmod]
      simp [show ¬ (64 - n % 64 + i < 64) by omega, show n % 64 ≤ i by omega,
        show i - n % 64 < 64 by omega, hi]

/-- Bit `i` of `fieldSet pos nr v data`, for `i < 64`: inside the field
(bits `64-pos-nr ≤ i < 64-pos`) it is bit `i - (64-pos-nr)` of `v`,
outside it is bit `i` of `data`. -/
theorem testBit_fieldSet {pos nr : Nat} (h1 : 0 < pos + nr) (h2 : pos + nr < 64)
    (v data : Nat) {i : Nat} (hi : i < 64) :
    (fieldSet pos nr v data).testBit i =
      if 64 - pos - nr ≤ i ∧ i < 64 - pos then v.testBit (i - (64 - pos - nr))
      else data.testBit i := by
  have hk : (pos + nr) % 64 = pos + nr := Nat.mod_eq_of_lt h2
  unfold fieldSet
  rw [Nat.testBit_lor, Nat.testBit_land, Nat.testBit_land,
    testBit_not64 (left_bits pos nr) hi, testBit_left_bits (le_of_lt h2),
    testBit_rotr v (pos + nr) hi, hk, testBit_mod_U64]
  by_cases hin : 64 - pos - nr ≤ i ∧ i < 64 - pos
  · rw [if_pos hin]
    have hmod : (i + (pos + nr)) % 64 = i - (64 - pos - nr) := by omega
    rw [hmod]
    simp [show 64 ≤ i + nr + pos by omega, show i < 64 - pos from hin.2,
      show i - (64 - pos - nr) < 64 by omega]
  · rw [if_neg hin]
    rcases Nat.lt_or_ge i (64 - pos - nr) with hA | hA
    · simp [show ¬ (64 ≤ i + nr + pos) by omega]
    · have hB : ¬ (i < 64 - pos) := by omega
      simp [hB]

/-- Bit `i` of `fieldGet pos nr data`, for `i < 64`. -/
theorem testBit_fieldGet {pos nr : Nat} (h1 : 0 < pos + nr) (h2 : pos + nr < 64)
    (data : Nat) {i : Nat} (hi : i < 64) :
    (fieldGet pos nr data).testBit i =
      (decide (i < nr) && data.testBit (i + (64 - pos - nr))) := by
  have hk : (pos + nr) % 64 = pos + nr := Nat.mod_eq_of_lt h2
  have ht : (64 - (pos + nr) % 64) % 64 = 64 - pos - nr := by
    rw [hk]; omega
  unfold fieldGet
  rw [testBit_rotl _ (pos + nr) hi, ht]
  simp only [testBit_mod_U64, Nat.testBit_land, testBit_left_bits (le_of_lt h2)]
  by_cases hc2 : i < pos + nr
  · have hmod : (i + (64 - pos - nr)) % 64 = i + (64 - pos - nr) := Nat.mod_eq_of_lt (by omega)
    rw [hmod]
    by_cases hc : i < nr
    · simp [show i + (64 - pos - nr) < 64 by omega, hc,
        show 64 - pos - nr ≤ i + (64 - pos - nr) by omega,
        show i + (64 - pos - nr) < 64 - pos by omega]
    · simp [hc, show ¬ (i + (64 - pos - nr) < 64 - pos) by omega]
  · have hmod : (i + (64 - pos - nr)) % 64 = i - (pos + nr) := by omega
    rw [hmod]
    simp [show ¬ (64 - pos - nr ≤ i - (pos + nr)) by omega, show ¬ (i < nr) by omega]

/-- Bit `i` of `compose_tag a data ltag`, for `i < 64`. -/
theorem testBit_compose_tag (a data ltag : Nat) {i : Nat} (hi : i < 64) :
    (compose_tag a data ltag).testBit i =
      if i < a then ltag.testBit i else data.testBit i := by
  unfold compose_tag
  simp only [Nat.testBit_lor, Nat.testBit_land, testBit_not64 (low_bits a) hi, testBit_low_bits]
  by_cases hc : i < a <;> simp [hc]

/-- An offset aligned to `2^a` has no set bit below `a`. -/
theorem aligned_testBit {off a i : Nat} (h : off % 2 ^ a = 0) (hi : i < a) :
    off.testBit i = false := by
  have hdvd : off = off / 2 ^ a * 2 ^ a := (Nat.div_mul_cancel (Nat.dvd_of_mod_eq_zero h)).symm
  rw [hdvd, ← Nat.shiftLeft_eq, Nat.testBit_shiftLeft]
  simp [Nat.not_le.2 hi]

theorem testBit_mask_aux (i : Nat) :
    (left_bits POS_AUX_BITS NR_AUX_BITS).testBit i = decide (63 ≤ i ∧ i < 64) := by
  unfold POS_AUX_BITS NR_AUX_BITS
  rw [testBit_left_bits (by norm_num), decide_eq_decide]
  try omega

theorem testBit_mask_desc (i : Nat) :
    (left_bits POS_DESC_BITS NR_DESC_BITS).testBit i = decide (62 ≤ i ∧ i < 63) := by
  unfold POS_DESC_BITS NR_DESC_BITS POS_AUX_BITS NR_AUX_BITS
  rw [testBit_left_bits (by norm_num), decide_eq_decide]
  try omega

theorem testBit_mask_tid (i : Nat) :
    (left_bits POS_TID_BITS NR_TID_BITS).testBit i = decide (53 ≤ i ∧ i < 62) := by
  unfold POS_TID_BITS NR_TID_BITS POS_DESC_BITS NR_DESC_BITS POS_AUX_BITS NR_AUX_BITS
  rw [testBit_left_bits (by norm_num), decide_eq_decide]
  try omega

theorem testBit_mask_high (i : Nat) :
    (left_bits POS_HIGH_BITS NR_HIGH_BITS).testBit i = decide (42 ≤ i ∧ i < 53) := by
  unfold POS_HIGH_BITS NR_HIGH_BITS POS_TID_BITS NR_TID_BITS POS_DESC_BITS NR_DESC_BITS
    POS_AUX_BITS NR_AUX_BITS
  rw [testBit_left_bits (by norm_num), decide_eq_decide]
  try omega

/-- Bit `i` of the offset component of `decompose_tag`, for `i < 64`:
bit `i` of `data` if `a ≤ i < 42`, else `false`. -/
theorem testBit_offGet (a data : Nat) {i : Nat} (hi : i < 64) :
    (offGet a data).testBit i = (data.testBit i && decide (a ≤ i ∧ i < 42)) := by
  unfold offGet
  simp only [Nat.testBit_land, testBit_not64 _ hi, testBit_low_bits,
    testBit_mask_aux, testBit_mask_desc, testBit_mask_tid, testBit_mask_high]
  by_cases h42 : i < 42
  · by_cases hA : a ≤ i
    · simp [h42, hA, show ¬ (63 ≤ i ∧ i < 64) by omega,
        show ¬ (62 ≤ i ∧ i < 63) by omega, show ¬ (53 ≤ i ∧ i < 62) by omega,
        show ¬ (42 ≤ i ∧ i < 53) by omega, show ¬ (i < a) by omega]
    · simp [show i < a by omega, hA]
  · rcases (by omega :
        (63 ≤ i ∧ i < 64) ∨ (62 ≤ i ∧ i < 63) ∨ (53 ≤ i ∧ i < 62) ∨ (42 ≤ i ∧ i < 53))
        with h | h | h | h <;> simp [h, h42]

/-- `offGet` is bounded by `2^64`. -/
theorem offGet_lt (a data : Nat) : offGet a data < U64 := by
  unfold offGet
  exact lt_of_le_of_lt
    (le_trans Nat.and_le_left (le_trans Nat.and_le_left
      (le_trans Nat.and_le_left (le_trans Nat.and_le_left Nat.and_le_right))))
    (not64_lt (left_bits_lt _ _))

/-- Bit `i` of `compose_aux_bit auxBit data`, for `i < 64`. -/
theorem testBit_compose_aux_bit (auxBit data : Nat) {i : Nat} (hi : i < 64) :
    (compose_aux_bit auxBit data).testBit i =
      if 63 ≤ i ∧ i < 64 then auxBit.testBit (i - 63) else data.testBit i := by
  unfold compose_aux_bit POS_AUX_BITS NR_AUX_BITS
  rw [testBit_fieldSet (by norm_num) (by norm_num) _ _ hi]

/-- Bit `i` of `compose_desc_bit descBit data`, for `i < 64`. -/
theorem testBit_compose_desc_bit (descBit data : Nat) {i : Nat} (hi : i < 64) :
    (compose_desc_bit descBit data).testBit i =
      if 62 ≤ i ∧ i < 63 then descBit.testBit (i - 62) else data.testBit i := by
  unfold compose_desc_bit POS_DESC_BITS NR_DESC_BITS POS_AUX_BITS NR_AUX_BITS
  rw [testBit_fieldSet (by norm_num) (by norm_num) _ _ hi]

/-- Bit `i` of `compose_tid tid data`, for `i < 64`. -/
theorem testBit_compose_tid (tid data : Nat) {i : Nat} (hi : i < 64) :
    (compose_tid tid data).testBit i =
      if 53 ≤ i ∧ i < 62 then tid.testBit (i - 53) else data.testBit i := by
  unfold compose_tid POS_TID_BITS NR_TID_BITS POS_DESC_BITS NR_DESC_BITS
    POS_AUX_BITS NR_AUX_BITS
  rw [testBit_fieldSet (by norm_num) (by norm_num) _ _ hi]

/-- Bit `i` of `compose_high_tag htag data`, for `i < 64`. -/
theorem testBit_compose_high_tag (htag data : Nat) {i : Nat} (hi : i < 64) :
    (compose_high_tag htag data).testBit i =
      if 42 ≤ i ∧ i < 53 then htag.testBit (i - 42) else data.testBit i := by
  unfold compose_high_tag POS_HIGH_BITS NR_HIGH_BITS POS_TID_BITS NR_TID_BITS
    POS_DESC_BITS NR_DESC_BITS POS_AUX_BITS NR_AUX_BITS
  rw [testBit_fieldSet (by norm_num) (by norm_num) _ _ hi]

/-- Extraction of the aux bit, with literal indices. -/
theorem testBit_get_aux (data : Nat) {i : Nat} (hi : i < 64) :
    (fieldGet POS_AUX_BITS NR_AUX_BITS data).testBit i =
      (decide (i < 1) && data.testBit (i + 63)) := by
  unfold POS_AUX_BITS NR_AUX_BITS
  rw [testBit_fieldGet (by norm_num) (by norm_num) _ hi]
  try norm_num

/-- Extraction of the desc bit, with literal indices. -/
theorem testBit_get_desc (data : Nat) {i : Nat} (hi : i < 64) :
    (fieldGet POS_DESC_BITS NR_DESC_BITS data).testBit i =
      (decide (i < 1) && data.testBit (i + 62)) := by
  unfold POS_DESC_BITS NR_DESC_BITS POS_AUX_BITS NR_AUX_BITS
  rw [testBit_fieldGet (by norm_num) (by norm_num) _ hi]
  try norm_num

/-- Extraction of the tid field, with literal indices. -/
theorem testBit_get_tid (data : Nat) {i : Nat} (hi : i < 64) :
    (fieldGet POS_TID_BITS NR_TID_BITS data).testBit i =
      (decide (i < 9) && data.testBit (i + 53)) := by
  unfold POS_TID_BITS NR_TID_BITS POS_DESC_BITS NR_DESC_BITS POS_AUX_BITS NR_AUX_BITS
  rw [testBit_fieldGet (by norm_num) (by norm_num) _ hi]
  try norm_num

/-- Extraction of the high tag, with literal indices. -/
theorem testBit_get_high (data : Nat) {i : Nat} (hi : i < 64) :
    (fieldGet POS_HIGH_BITS NR_HIGH_BITS data).testBit i =
      (decide (i < 11) && data.testBit (i + 42)) := by
  unfold POS_HIGH_BITS NR_HIGH_BITS POS_TID_BITS NR_TID_BITS POS_DESC_BITS NR_DESC_BITS
    POS_AUX_BITS NR_AUX_BITS
  rw [testBit_fieldGet (by norm_num) (by norm_num) _ hi]
  try norm_num

theorem lt_two_pow_64 {x : Nat} (h : x < U64) : x < 2 ^ 64 := h

/-- Bit `i` of the fully composed tagged word, for `i < 64`. -/
theorem testBit_composedWord (a auxB descB tid htag off low : Nat) {i : Nat} (hi : i < 64) :
    (compose_aux_bit auxB (compose_desc_bit descB (compose_tid tid
      (compose_high_tag htag (compose_tag a off low))))).testBit i =
      if 63 ≤ i then auxB.testBit (i - 63)
      else if 62 ≤ i then descB.testBit (i - 62)
      else if 53 ≤ i then tid.testBit (i - 53)
      else if 42 ≤ i then htag.testBit (i - 42)
      else if i < a then low.testBit i
      else off.testBit i := by
  rw [testBit_compose_aux_bit _ _ hi, testBit_compose_desc_bit _ _ hi,
    testBit_compose_tid _ _ hi, testBit_compose_high_tag _ _ hi,
    testBit_compose_tag _ _ _ hi]
  by_cases h63 : 63 ≤ i
  · rw [if_pos ⟨h63, hi⟩, if_pos h63]
  · rw [if_neg (by omega), if_neg h63]
    by_cases h62 : 62 ≤ i
    · rw [if_pos (by omega), if_pos h62]
    · rw [if_neg (by omega), if_neg h62]
      by_cases h53 : 53 ≤ i
      · rw [if_pos (by omega), if_pos h53]
      · rw [if_neg (by omega), if_neg h53]
        by_cases h42 : 42 ≤ i
        · rw [if_pos (by omega), if_pos h42]
        · rw [if_neg (by omega), if_neg h42]

theorem roundtrip_auxB (a auxB descB tid htag off low : Nat) (haux : auxB < 2) :
    fieldGet POS_AUX_BITS NR_AUX_BITS (compose_aux_bit auxB (compose_desc_bit descB
      (compose_tid tid (compose_high_tag htag (compose_tag a off low))))) = auxB := by
  apply Nat.eq_of_testBit_eq
  intro i
  rcases Nat.lt_or_ge i 64 with hi | hi
  · rw [testBit_get_aux _ hi]
    by_cases hc : i < 1
    · rw [testBit_composedWord _ _ _ _ _ _ _ (show i + 63 < 64 by omega),
        if_pos (show 63 ≤ i + 63 by omega), show i + 63 - 63 = i by omega]
      simp [hc]
    · have hz : auxB.testBit i = false := testBit_false_ge (show auxB < 2 ^ 1 by omega) (by omega)
      simp [hc, hz]
  · rw [testBit_false_ge (lt_two_pow_64 (fieldGet_lt _ _ _)) hi,
      testBit_false_ge (show auxB < 2 ^ 1 by omega) (by omega)]

theorem roundtrip_descB (a auxB descB tid htag off low : Nat) (hdesc : descB < 2) :
    fieldGet POS_DESC_BITS NR_DESC_BITS (compose_aux_bit auxB (compose_desc_bit descB
      (compose_tid tid (compose_high_tag htag (compose_tag a off low))))) = descB := by
  apply Nat.eq_of_testBit_eq
  intro i
  rcases Nat.lt_or_ge i 64 with hi | hi
  · rw [testBit_get_desc _ hi]
    by_cases hc : i < 1
    · rw [testBit_composedWord _ _ _ _ _ _ _ (show i + 62 < 64 by omega),
        if_neg (show ¬ 63 ≤ i + 62 by omega), if_pos (show 62 ≤ i + 62 by omega),
        show i + 62 - 62 = i by omega]
      simp [hc]
    · have hz : descB.testBit i = false := testBit_false_ge (show descB < 2 ^ 1 by omega) (by omega)
      simp [hc, hz]
  · rw [testBit_false_ge (lt_two_pow_64 (fieldGet_lt _ _ _)) hi,
      testBit_false_ge (show descB < 2 ^ 1 by omega) (by omega)]

theorem roundtrip_tid (a auxB descB tid htag off low : Nat) (htid : tid < 2 ^ 9) :
    fieldGet POS_TID_BITS NR_TID_BITS (compose_aux_bit auxB (compose_desc_bit descB
      (compose_tid tid (compose_high_tag htag (compose_tag a off low))))) = tid := by
  apply Nat.eq_of_testBit_eq
  intro i
  rcases Nat.lt_or_ge i 64 with hi | hi
  · rw [testBit_get_tid _ hi]
    by_cases hc : i < 9
    · rw [testBit_composedWord _ _ _ _ _ _ _ (show i + 53 < 64 by omega),
        if_neg (show ¬ 63 ≤ i + 53 by omega), if_neg (show ¬ 62 ≤ i + 53 by omega),
        if_pos (show 53 ≤ i + 53 by omega), show i + 53 - 53 = i by omega]
      simp [hc]
    · have hz : tid.testBit i = false := testBit_false_ge htid (by omega)
      simp [hc, hz]
  · rw [testBit_false_ge (lt_two_pow_64 (fieldGet_lt _ _ _)) hi,
      testBit_false_ge htid (by omega)]

theorem roundtrip_high (a auxB descB tid htag off low : Nat) (hhigh : htag < 2 ^ 11) :
    fieldGet POS_HIGH_BITS NR_HIGH_BITS (compose_aux_bit auxB (compose_desc_bit descB
      (compose_tid tid (compose_high_tag htag (compose_tag a off low))))) = htag := by
  apply Nat.eq_of_testBit_eq
  intro i
  rcases Nat.lt_or_ge i 64 with hi | hi
  · rw [testBit_get_high _ hi]
    by_cases hc : i < 11
    · rw [testBit_composedWord _ _ _ _ _ _ _ (show i + 42 < 64 by omega),
        if_neg (show ¬ 63 ≤ i + 42 by omega), if_neg (show ¬ 62 ≤ i + 42 by omega),
        if_neg (show ¬ 53 ≤ i + 42 by omega), if_pos (show 42 ≤ i + 42 by omega),
        show i + 42 - 42 = i by omega]
      simp [hc]
    · have hz : htag.testBit i = false := testBit_false_ge hhigh (by omega)
      simp [hc, hz]
  · rw [testBit_false_ge (lt_two_pow_64 (fieldGet_lt _ _ _)) hi,
      testBit_false_ge hhigh (by omega)]

theorem roundtrip_off (a auxB descB tid htag off low : Nat)
    (hoff : off < 2 ^ 42) (hal : off % 2 ^ a = 0) :
    offGet a (compose_aux_bit auxB (compose_desc_bit descB
      (compose_tid tid (compose_high_tag htag (compose_tag a off low))))) = off := by
  apply Nat.eq_of_testBit_eq
  intro i
  rcases Nat.lt_or_ge i 64 with hi | hi
  · rw [testBit_offGet _ _ hi]
    by_cases hc : a ≤ i ∧ i < 42
    · rw [testBit_composedWord _ _ _ _ _ _ _ hi, if_neg (by omega), if_neg (by omega),
        if_neg (by omega), if_neg (by omega), if_neg (by omega)]
      simp [hc]
    · have hz : off.testBit i = false := by
        rcases (by omega : i < a ∨ 42 ≤ i) with h | h
        · exact aligned_testBit hal h
        · exact testBit_false_ge hoff h
      simp [hc, hz]
  · rw [testBit_false_ge (lt_two_pow_64 (offGet_lt _ _)) hi, testBit_false_ge hoff (by omega)]

theorem roundtrip_low (a auxB descB tid htag off low : Nat) (ha : a ≤ 42) (hlow : low < 2 ^ a) :
    (compose_aux_bit auxB (compose_desc_bit descB (compose_tid tid
      (compose_high_tag htag (compose_tag a off low)))) &&& low_bits a) = low := by
  apply Nat.eq_of_testBit_eq
  intro i
  rcases Nat.lt_or_ge i 64 with hi | hi
  · rw [Nat.testBit_land, testBit_low_bits]
    by_cases hc : i < a
    · rw [testBit_composedWord _ _ _ _ _ _ _ hi, if_neg (by omega), if_neg (by omega),
        if_neg (by omega), if_neg (by omega), if_pos hc]
      simp [hc]
    · have hz : low.testBit i = false := testBit_false_ge hlow (by omega)
      simp [hc, hz]
  · rw [testBit_false_ge
      (lt_two_pow_64 (lt_of_le_of_lt Nat.and_le_right (low_bits_lt (by omega)))) hi,
      testBit_false_ge hlow (by omega)]

/-- C1: Tagged-pointer round trip.  For every aux bit `< 2`, desc bit `< 2`,
tid `≤ 511`, high tag `< 2^11`, pool-relative offset aligned to `2^a` and
within the offset field (`< 2^42`), and low tag below the alignment,
composing a word via `compose_aux_bit`, `compose_desc_bit`, `compose_tid`,
`compose_high_tag` and `compose_tag` and decomposing it with
`decompose_tag` returns exactly the original six field values. -/
theorem tagged_pointer_round_trip
    (a auxB descB tid htag off low : Nat)
    (ha : a ≤ 42) (haux : auxB < 2) (hdesc : descB < 2) (htid : tid < 2 ^ 9)
    (hhigh : htag < 2 ^ 11) (hoff : off < 2 ^ 42) (hal : off % 2 ^ a = 0)
    (hlow : low < 2 ^ a) :
    decompose_tag a (compose_aux_bit auxB (compose_desc_bit descB (compose_tid tid
      (compose_high_tag htag (compose_tag a off low))))) =
      (auxB, descB, tid, htag, off, low) := by
  unfold decompose_tag
  rw [roundtrip_auxB _ _ _ _ _ _ _ haux, roundtrip_descB _ _ _ _ _ _ _ hdesc,
    roundtrip_tid _ _ _ _ _ _ _ htid, roundtrip_high _ _ _ _ _ _ _ hhigh,
    roundtrip_off _ _ _ _ _ _ _ hoff hal, roundtrip_low _ _ _ _ _ _ _ ha hlow]

/-- Witness for C1 at a concrete input. -/
theorem tagged_pointer_round_trip_witness :
    (3 : Nat) ≤ 42 ∧
    decompose_tag 3 (compose_aux_bit 1 (compose_desc_bit 0 (compose_tid 37
      (compose_high_tag 5 (compose_tag 3 1024 6))))) = (1, 0, 37, 5, 1024, 6) :=
  ⟨by norm_num,
   tagged_pointer_round_trip 3 1 0 37 5 1024 6 (by norm_num) (by norm_num) (by norm_num)
     (by norm_num) (by norm_num) (by norm_num) (by norm_num) (by norm_num)⟩

/-- A field extraction is unchanged when the word agrees on the field's bits. -/
theorem fieldGet_frame {posP nrP : Nat} (h1 : 0 < posP + nrP) (h2 : posP + nrP < 64)
    {W p : Nat}
    (hsame : ∀ j, j < 64 → 64 - posP - nrP ≤ j → j < 64 - posP → W.testBit j = p.testBit j) :
    fieldGet posP nrP W = fieldGet posP nrP p := by
  apply Nat.eq_of_testBit_eq
  intro i
  rcases Nat.lt_or_ge i 64 with hi | hi
  · rw [testBit_fieldGet h1 h2 _ hi, testBit_fieldGet h1 h2 _ hi]
    by_cases hc : i < nrP
    · rw [hsame (i + (64 - posP - nrP)) (by omega) (by omega) (by omega)]
    · simp [hc]
  · rw [testBit_false_ge (lt_two_pow_64 (fieldGet_lt _ _ _)) hi,
      testBit_false_ge (lt_two_pow_64 (fieldGet_lt _ _ _)) hi]

/-- The offset extraction is unchanged when the word agrees on bits `a ≤ j < 42`. -/
theorem offGet_frame {a W p : Nat}
    (hsame : ∀ j, j < 64 → a ≤ j → j < 42 → W.testBit j = p.testBit j) :
    offGet a W = offGet a p := by
  apply Nat.eq_of_testBit_eq
  intro i
  rcases Nat.lt_or_ge i 64 with hi | hi
  · rw [testBit_offGet _ _ hi, testBit_offGet _ _ hi]
    by_cases hc : a ≤ i ∧ i < 42
    · rw [hsame i hi hc.1 hc.2]
    · simp [hc]
  · rw [testBit_false_ge (lt_two_pow_64 (offGet_lt _ _)) hi,
      testBit_false_ge (lt_two_pow_64 (offGet_lt _ _)) hi]

/-- The low-tag extraction is unchanged when the word agrees on bits `< a`. -/
theorem land_low_frame {a W p : Nat} (ha : a ≤ 64)
    (hsame : ∀ j, j < 64 → j < a → W.testBit j = p.testBit j) :
    W &&& low_bits a = p &&& low_bits a := by
  apply Nat.eq_of_testBit_eq
  intro i
  rcases Nat.lt_or_ge i 64 with hi | hi
  · rw [Nat.testBit_land, Nat.testBit_land, testBit_low_bits]
    by_cases hc : i < a
    · rw [hsame i hi hc]
    · simp [hc]
  · rw [testBit_false_ge (lt_two_pow_64 (lt_of_le_of_lt Nat.and_le_right (low_bits_lt ha))) hi,
      testBit_false_ge (lt_two_pow_64 (lt_of_le_of_lt Nat.and_le_right (low_bits_lt ha))) hi]

/-- `compose_tid` writes `v`'s low 9 bits into the tid field. -/
theorem tid_of_compose_tid (v p : Nat) :
    fieldGet POS_TID_BITS NR_TID_BITS (compose_tid v p) = v % 2 ^ 9 := by
  apply Nat.eq_of_testBit_eq
  intro i
  rcases Nat.lt_or_ge i 64 with hi | hi
  · rw [testBit_get_tid _ hi, Nat.testBit_mod_two_pow]
    by_cases hc : i < 9
    · rw [testBit_compose_tid _ _ (show i + 53 < 64 by omega), if_pos (by omega),
        show i + 53 - 53 = i by omega]
    · simp [hc]
  · rw [testBit_false_ge (lt_two_pow_64 (fieldGet_lt _ _ _)) hi,
      testBit_false_ge (Nat.mod_lt v (by norm_num) : v % 2 ^ 9 < 2 ^ 9) (by omega)]

/-- `compose_high_tag` writes `v`'s low 11 bits into the high-tag field. -/
theorem high_of_compose_high_tag (v p : Nat) :
    fieldGet POS_HIGH_BITS NR_HIGH_BITS (compose_high_tag v p) = v % 2 ^ 11 := by
  apply Nat.eq_of_testBit_eq
  intro i
  rcases Nat.lt_or_ge i 64 with hi | hi
  · rw [testBit_get_high _ hi, Nat.testBit_mod_two_pow]
    by_cases hc : i < 11
    · rw [testBit_compose_high_tag _ _ (show i + 42 < 64 by omega), if_pos (by omega),
        show i + 42 - 42 = i by omega]
    · simp [hc]
  · rw [testBit_false_ge (lt_two_pow_64 (fieldGet_lt _ _ _)) hi,
      testBit_false_ge (Nat.mod_lt v (by norm_num) : v % 2 ^ 11 < 2 ^ 11) (by omega)]

/-- `compose_tag` writes `v`'s low `a` bits into the low-tag field. -/
theorem tag_of_compose_tag {a : Nat} (ha : a ≤ 64) (p v : Nat) :
    compose_tag a p v &&& low_bits a = v % 2 ^ a := by
  apply Nat.eq_of_testBit_eq
  intro i
  rcases Nat.lt_or_ge i 64 with hi | hi
  · rw [Nat.testBit_land, testBit_low_bits, Nat.testBit_mod_two_pow]
    by_cases hc : i < a
    · rw [testBit_compose_tag _ _ _ hi, if_pos hc]
      simp [hc]
    · simp [hc]
  · rw [testBit_false_ge (lt_two_pow_64 (lt_of_le_of_lt Nat.and_le_right (low_bits_lt ha))) hi,
      testBit_false_ge (Nat.mod_lt v (Nat.pos_pow_of_pos a (by norm_num)) : v % 2 ^ a < 2 ^ a)
        (by omega)]

/-- C9: Tagged-pointer field setters truncate and frame.  For every word `p`
and value `v`: `with_tid v` yields `tid() = v % 2^9`, `with_high_tag v`
yields `high_tag() = v % 2^11`, and `with_tag v` yields `tag() = v % 2^a`
(the alignment of `T` is `2^a`); in each case the five other decomposed
fields are unchanged. -/
theorem with_setters_truncate_and_frame (a p v : Nat) (ha : a ≤ 42) :
    (tidOf (compose_tid v p) = v % 2 ^ 9 ∧
     aux_bitOf (compose_tid v p) = aux_bitOf p ∧
     desc_bitOf (compose_tid v p) = desc_bitOf p ∧
     high_tagOf (compose_tid v p) = high_tagOf p ∧
     offsetOf a (compose_tid v p) = offsetOf a p ∧
     tagOf a (compose_tid v p) = tagOf a p) ∧
    (high_tagOf (compose_high_tag v p) = v % 2 ^ 11 ∧
     aux_bitOf (compose_high_tag v p) = aux_bitOf p ∧
     desc_bitOf (compose_high_tag v p) = desc_bitOf p ∧
     tidOf (compose_high_tag v p) = tidOf p ∧
     offsetOf a (compose_high_tag v p) = offsetOf a p ∧
     tagOf a (compose_high_tag v p) = tagOf a p) ∧
    (tagOf a (compose_tag a p v) = v % 2 ^ a ∧
     aux_bitOf (compose_tag a p v) = aux_bitOf p ∧
     desc_bitOf (compose_tag a p v) = desc_bitOf p ∧
     tidOf (compose_tag a p v) = tidOf p ∧
     high_tagOf (compose_tag a p v) = high_tagOf p ∧
     offsetOf a (compose_tag a p v) = offsetOf a p) := by
  refine ⟨⟨tid_of_compose_tid v p, ?_, ?_, ?_, ?_, ?_⟩,
    ⟨high_of_compose_high_tag v p, ?_, ?_, ?_, ?_, ?_⟩,
    ⟨tag_of_compose_tag (by omega) p v, ?_, ?_, ?_, ?_, ?_⟩⟩
  · unfold aux_bitOf
    apply fieldGet_frame (by norm_num [POS_AUX_BITS, NR_AUX_BITS])
      (by norm_num [POS_AUX_BITS, NR_AUX_BITS])
    intro j hj hlo hhi
    simp only [POS_AUX_BITS, NR_AUX_BITS] at hlo hhi
    rw [testBit_compose_tid _ _ hj, if_neg (by omega)]
  · unfold desc_bitOf
    apply fieldGet_frame (by norm_num [POS_DESC_BITS, NR_DESC_BITS, POS_AUX_BITS, NR_AUX_BITS])
      (by norm_num [POS_DESC_BITS, NR_DESC_BITS, POS_AUX_BITS, NR_AUX_BITS])
    intro j hj hlo hhi
    simp only [POS_DESC_BITS, NR_DESC_BITS, POS_AUX_BITS, NR_AUX_BITS] at hlo hhi
    rw [testBit_compose_tid _ _ hj, if_neg (by omega)]
  · unfold high_tagOf
    apply fieldGet_frame
      (by norm_num [POS_HIGH_BITS, NR_HIGH_BITS, POS_TID_BITS, NR_TID_BITS,
        POS_DESC_BITS, NR_DESC_BITS, POS_AUX_BITS, NR_AUX_BITS])
      (by norm_num [POS_HIGH_BITS, NR_HIGH_BITS, POS_TID_BITS, NR_TID_BITS,
        POS_DESC_BITS, NR_DESC_BITS, POS_AUX_BITS, NR_AUX_BITS])
    intro j hj hlo hhi
    simp only [POS_HIGH_BITS, NR_HIGH_BITS, POS_TID_BITS, NR_TID_BITS,
      POS_DESC_BITS, NR_DESC_BITS, POS_AUX_BITS, NR_AUX_BITS] at hlo hhi
    rw [testBit_compose_tid _ _ hj, if_neg (by omega)]
  · unfold offsetOf
    apply offGet_frame
    intro j hj hlo hhi
    rw [testBit_compose_tid _ _ hj, if_neg (by omega)]
  · unfold tagOf
    apply land_low_frame (by omega)
    intro j hj hja
    rw [testBit_compose_tid _ _ hj, if_neg (by omega)]
  · unfold aux_bitOf
    apply fieldGet_frame (by norm_num [POS_AUX_BITS, NR_AUX_BITS])
      (by norm_num [POS_AUX_BITS, NR_AUX_BITS])
    intro j hj hlo hhi
    simp only [POS_AUX_BITS, NR_AUX_BITS] at hlo hhi
    rw [testBit_compose_high_tag _ _ hj, if_neg (by omega)]
  · unfold desc_bitOf
    apply fieldGet_frame (by norm_num [POS_DESC_BITS, NR_DESC_BITS, POS_AUX_BITS, NR_AUX_BITS])
      (by norm_num [POS_DESC_BITS, NR_DESC_BITS, POS_AUX_BITS, NR_AUX_BITS])
    intro j hj hlo hhi
    simp only [POS_DESC_BITS, NR_DESC_BITS, POS_AUX_BITS, NR_AUX_BITS] at hlo hhi
    rw [testBit_compose_high_tag _ _ hj, if_neg (by omega)]
  · unfold tidOf
    apply fieldGet_frame
      (by norm_num [POS_TID_BITS, NR_TID_BITS, POS_DESC_BITS, NR_DESC_BITS,
        POS_AUX_BITS, NR_AUX_BITS])
      (by norm_num [POS_TID_BITS, NR_TID_BITS, POS_DESC_BITS, NR_DESC_BITS,
        POS_AUX_BITS, NR_AUX_BITS])
    intro j hj hlo hhi
    simp only [POS_TID_BITS, NR_TID_BITS, POS_DESC_BITS, NR_DESC_BITS,
      POS_AUX_BITS, NR_AUX_BITS] at hlo hhi
    rw [testBit_compose_high_tag _ _ hj, if_neg (by omega)]
  · unfold offsetOf
    apply offGet_frame
    intro j hj hlo hhi
    rw [testBit_compose_high_tag _ _ hj, if_neg (by omega)]
  · unfold tagOf
    apply land_low_frame (by omega)
    intro j hj hja
    rw [testBit_compose_high_tag _ _ hj, if_neg (by omega)]
  · unfold aux_bitOf
    apply fieldGet_frame (by norm_num [POS_AUX_BITS, NR_AUX_BITS])
      (by norm_num [POS_AUX_BITS, NR_AUX_BITS])
    intro j hj hlo hhi
    simp only [POS_AUX_BITS, NR_AUX_BITS] at hlo hhi
    rw [testBit_compose_tag _ _ _ hj, if_neg (by omega)]
  · unfold desc_bitOf
    apply fieldGet_frame (by norm_num [POS_DESC_BITS, NR_DESC_BITS, POS_AUX_BITS, NR_AUX_BITS])
      (by norm_num [POS_DESC_BITS, NR_DESC_BITS, POS_AUX_BITS, NR_AUX_BITS])
    intro j hj hlo hhi
    simp only [POS_DESC_BITS, NR_DESC_BITS, POS_AUX_BITS, NR_AUX_BITS] at hlo hhi
    rw [testBit_compose_tag _ _ _ hj, if_neg (by omega)]
  · unfold tidOf
    apply fieldGet_frame
      (by norm_num [POS_TID_BITS, NR_TID_BITS, POS_DESC_BITS, NR_DESC_BITS,
        POS_AUX_BITS, NR_AUX_BITS])
      (by norm_num [POS_TID_BITS, NR_TID_BITS, POS_DESC_BITS, NR_DESC_BITS,
        POS_AUX_BITS, NR_AUX_BITS])
    intro j hj hlo hhi
    simp only [POS_TID_BITS, NR_TID_BITS, POS_DESC_BITS, NR_DESC_BITS,
      POS_AUX_BITS, NR_AUX_BITS] at hlo hhi
    rw [testBit_compose_tag _ _ _ hj, if_neg (by omega)]
  · unfold high_tagOf
    apply fieldGet_frame
      (by norm_num [POS_HIGH_BITS, NR_HIGH_BITS, POS_TID_BITS, NR_TID_BITS,
        POS_DESC_BITS, NR_DESC_BITS, POS_AUX_BITS, NR_AUX_BITS])
      (by norm_num [POS_HIGH_BITS, NR_HIGH_BITS, POS_TID_BITS, NR_TID_BITS,
        POS_DESC_BITS, NR_DESC_BITS, POS_AUX_BITS, NR_AUX_BITS])
    intro j hj hlo hhi
    simp only [POS_HIGH_BITS, NR_HIGH_BITS, POS_TID_BITS, NR_TID_BITS,
      POS_DESC_BITS, NR_DESC_BITS, POS_AUX_BITS, NR_AUX_BITS] at hlo hhi
    rw [testBit_compose_tag _ _ _ hj, if_neg (by omega)]
  · unfold offsetOf
    apply offGet_frame
    intro j hj hlo hhi
    rw [testBit_compose_tag _ _ _ hj, if_neg (by omega)]

/-- Witness for C9 at a concrete input. -/
theorem with_setters_truncate_and_frame_witness :
    (3 : Nat) ≤ 42 ∧ tidOf (compose_tid 700 81985529216486895) = 700 % 2 ^ 9 :=
  ⟨by norm_num, ((with_setters_truncate_and_frame 3 81985529216486895 700 (by norm_num)).1).1⟩

/-! ### Combining-lock theorems -/

/-- The pointer field of `decompose_aux_bit` is the lock word shifted
right by 9 bits. -/
theorem comb_decompose_fst {inner : Nat} (hinner : inner < U64) :
    (CombLock.decompose_aux_bit inner).1 = inner / 2 ^ 9 := by
  unfold CombLock.decompose_aux_bit
  rw [← Nat.shiftRight_eq_div_pow]
  apply Nat.eq_of_testBit_eq
  intro i
  rcases Nat.lt_or_ge i 64 with hi | hi
  · rw [Nat.testBit_shiftRight]
    unfold CombLock.POS_AUX_BITS CombLock.NR_AUX_BITS
    rw [testBit_fieldGet (by norm_num) (by norm_num) _ hi]
    by_cases hc : i < 55
    · simp [hc, show 9 + i = i + (64 - 0 - 55) by omega]
    · have hz : inner.testBit (9 + i) = false := testBit_false_ge hinner (by omega)
      simp [hc, hz]
  · rw [testBit_false_ge (lt_two_pow_64 (fieldGet_lt _ _ _)) hi,
      testBit_false_ge (show inner >>> 9 < 2 ^ 64 from shiftRight_lt_U64 hinner 9) hi]

/-- The tid field of `decompose_aux_bit` is the lock word's low 9 bits. -/
theorem comb_decompose_snd (inner : Nat) :
    (CombLock.decompose_aux_bit inner).2 = inner % 2 ^ 9 := by
  unfold CombLock.decompose_aux_bit
  apply Nat.eq_of_testBit_eq
  intro i
  rcases Nat.lt_or_ge i 64 with hi | hi
  · rw [Nat.testBit_land, Nat.testBit_mod_two_pow,
      testBit_not64 _ hi, testBit_left_bits (by norm_num [CombLock.POS_AUX_BITS,
        CombLock.NR_AUX_BITS])]
    unfold CombLock.POS_AUX_BITS CombLock.NR_AUX_BITS
    by_cases hc : i < 9
    · simp [hc, show ¬ (64 - 0 - 55 ≤ i ∧ i < 64 - 0) by omega]
    · simp [hc, show 64 - 0 - 55 ≤ i ∧ i < 64 - 0 by omega]
  · rw [testBit_false_ge
      (lt_two_pow_64 (lt_of_le_of_lt Nat.and_le_left (not64_lt (left_bits_lt _ _)))) hi,
      testBit_false_ge (show inner % 2 ^ 9 < 2 ^ 9 from Nat.mod_lt _ (by norm_num)) (by omega)]

/-- A composed lock word decomposes back to its two fields. -/
theorem comb_compose_fields {v t : Nat} (hv : v < 2 ^ 55) (ht : t < 2 ^ 9) :
    CombLock.decompose_aux_bit (CombLock.compose_aux_bit v t) = (v, t) := by
  unfold CombLock.decompose_aux_bit CombLock.compose_aux_bit
  rw [Prod.mk.injEq]
  refine ⟨?_, ?_⟩
  · apply Nat.eq_of_testBit_eq
    intro i
    rcases Nat.lt_or_ge i 64 with hi | hi
    · unfold CombLock.POS_AUX_BITS CombLock.NR_AUX_BITS
      rw [testBit_fieldGet (by norm_num) (by norm_num) _ hi]
      by_cases hc : i < 55
      · rw [testBit_fieldSet (by norm_num) (by norm_num) _ _
          (show i + (64 - 0 - 55) < 64 by omega), if_pos (by omega),
          show i + (64 - 0 - 55) - (64 - 0 - 55) = i by omega]
        simp [hc]
      · have hz : v.testBit i = false := testBit_false_ge hv (by omega)
        simp [hc, hz]
    · rw [testBit_false_ge (lt_two_pow_64 (fieldGet_lt _ _ _)) hi,
        testBit_false_ge hv (by omega)]
  · apply Nat.eq_of_testBit_eq
    intro i
    rcases Nat.lt_or_ge i 64 with hi | hi
    · rw [Nat.testBit_land, testBit_not64 _ hi,
        testBit_left_bits (by norm_num [CombLock.POS_AUX_BITS, CombLock.NR_AUX_BITS])]
      unfold CombLock.POS_AUX_BITS CombLock.NR_AUX_BITS
      by_cases hc : i < 9
      · rw [testBit_fieldSet (by norm_num) (by norm_num) _ _ hi, if_neg (by omega)]
        simp [show ¬ (64 - 0 - 55 ≤ i ∧ i < 64 - 0) by omega]
      · have hz : t.testBit i = false := testBit_false_ge ht (by omega)
        simp [hz, show 64 - 0 - 55 ≤ i ∧ i < 64 - 0 by omega]
    · rw [testBit_false_ge
        (lt_two_pow_64 (lt_of_le_of_lt Nat.and_le_left (not64_lt (left_bits_lt _ _)))) hi,
        testBit_false_ge ht (by omega)]

/-- C8: Combining-lock operations.  `try_lock tid` returns `Ok` exactly when
the lock word's tid field is 0 (released) or already equals `tid`, and
returns `Err` with the observed `(ptr, tid)` fields otherwise; `peek`
returns both the state-pointer field and the owner-tid field; `unlock ptr`
stores a word whose pointer field is `ptr` and whose owner field is 0. -/
theorem combining_lock_ops (inner tid ptr : Nat) (hinner : inner < U64)
    (hptr : ptr < 2 ^ 55) :
    CombLock.peek inner = (inner / 2 ^ 9, inner % 2 ^ 9) ∧
    ((CombLock.try_lock inner tid).1 = Except.ok () ↔
      inner % 2 ^ 9 = 0 ∨ inner % 2 ^ 9 = tid) ∧
    (∀ pt, (CombLock.try_lock inner tid).1 = Except.error pt →
      pt = (inner / 2 ^ 9, inner % 2 ^ 9)) ∧
    CombLock.peek (CombLock.unlock ptr) = (ptr, 0) := by
  have hfst := comb_decompose_fst hinner
  have hsnd := comb_decompose_snd inner
  have hpeek : CombLock.peek inner = (inner / 2 ^ 9, inner % 2 ^ 9) := by
    unfold CombLock.peek
    rw [← hfst, ← hsnd]
  refine ⟨hpeek, ?_, ?_, ?_⟩
  · unfold CombLock.try_lock CombLock.is_owner CombLock.RELEASED
    simp only [hsnd, beq_iff_eq]
    by_cases ho : tid = inner % 2 ^ 9
    · rw [if_pos ho]
      constructor
      · intro _
        exact Or.inr ho.symm
      · intro _
        rfl
    · rw [if_neg ho]
      by_cases hz : inner % 2 ^ 9 = 0
      · rw [if_neg (by omega), if_pos trivial]
        constructor
        · intro _
          exact Or.inl hz
        · intro _
          rfl
      · rw [if_pos hz]
        constructor
        · intro h
          exact absurd h (by simp)
        · intro h
          exact absurd h (by omega)
  · intro pt hpt
    unfold CombLock.try_lock CombLock.is_owner CombLock.RELEASED at hpt
    simp only [hsnd, beq_iff_eq] at hpt
    by_cases ho : tid = inner % 2 ^ 9
    · rw [if_pos ho] at hpt
      exact absurd hpt (by simp)
    · rw [if_neg ho] at hpt
      by_cases hz : inner % 2 ^ 9 = 0
      · rw [if_neg (by omega), if_pos trivial] at hpt
        exact absurd hpt (by simp)
      · rw [if_pos hz] at hpt
        simp only [Except.error.injEq] at hpt
        rw [← hpt]
        exact Prod.ext_iff.mpr ⟨hfst, hsnd⟩
  · unfold CombLock.peek CombLock.unlock CombLock.RELEASED
    exact comb_compose_fields hptr (by norm_num)

/-- Witness for C8 at a concrete input. -/
theorem combining_lock_ops_witness :
    (2567 : Nat) < U64 ∧ CombLock.peek 2567 = (2567 / 2 ^ 9, 2567 % 2 ^ 9) :=
  ⟨by norm_num [U64],
   (combining_lock_ops 2567 7 12345 (by norm_num [U64]) (by norm_num)).1⟩

/-- C10: acquiring the combining lock erases the published state pointer.
When `try_lock tid` succeeds via the compare-exchange on a released lock
(owner field 0, `tid ≠ 0`), the resulting lock word decomposes to pointer
field 0 and owner field `tid`. -/
theorem try_lock_erases_state_pointer (inner tid : Nat) (_hinner : inner < U64)
    (htid : tid < 2 ^ 9) (htid0 : tid ≠ 0) (hrel : inner % 2 ^ 9 = 0) :
    (CombLock.try_lock inner tid).1 = Except.ok () ∧
    CombLock.peek (CombLock.try_lock inner tid).2 = (0, tid) := by
  have hsnd := comb_decompose_snd inner
  unfold CombLock.try_lock CombLock.is_owner CombLock.RELEASED CombLock.PTR_NULL
  simp only [hsnd, beq_iff_eq, hrel]
  rw [if_neg htid0, if_neg (by omega), if_pos trivial]
  refine ⟨rfl, ?_⟩
  unfold CombLock.peek
  exact comb_compose_fields (by norm_num) htid

/-- Witness for C10 at a concrete input. -/
theorem try_lock_erases_state_pointer_witness :
    (CombLock.try_lock 2560 7).1 = Except.ok () ∧
    CombLock.peek (CombLock.try_lock 2560 7).2 = (0, 7) :=
  try_lock_erases_state_pointer 2560 7 (by norm_num [U64]) (by norm_num)
    (by norm_num) (by norm_num)

/-! ### Single-word persistent CAS (pcas.rs) theorems -/

/-- The low-bits mask keeps bit 0 whenever the alignment exponent is
positive. -/
theorem low_bits_and_one {a : Nat} (ha1 : 1 ≤ a) : low_bits a &&& 1 = 1 := by
  apply Nat.eq_of_testBit_eq
  intro i
  rw [Nat.testBit_land, testBit_low_bits]
  by_cases hc : i = 0
  · subst hc
    simp [show (0:Nat) < a by omega]
  · have hz : Nat.testBit 1 i = false := testBit_false_ge (show (1:Nat) < 2 ^ 1 by norm_num) (by omega)
    simp [hz]

/-- The DIRTY check of `pcas_read` sees exactly the word's lowest bit. -/
theorem tagOf_and_one {a : Nat} (ha1 : 1 ≤ a) (w : Nat) :
    tagOf a w &&& 1 = w % 2 := by
  unfold tagOf
  rw [Nat.and_assoc, low_bits_and_one ha1, Nat.and_one_is_mod]

/-- An aligned value has a clear lowest bit. -/
theorem aligned_and_one {a v : Nat} (ha1 : 1 ≤ a) (hal : v % 2 ^ a = 0) :
    v &&& 1 = 0 := by
  apply Nat.eq_of_testBit_eq
  intro i
  rw [Nat.testBit_land]
  by_cases hc : i = 0
  · subst hc
    simp [aligned_testBit hal (by omega : 0 < a)]
  · have hz : Nat.testBit 1 i = false := testBit_false_ge (show (1:Nat) < 2 ^ 1 by norm_num) (by omega)
    simp [hz]

/-- Setting and then clearing the low tag of an aligned word restores it. -/
theorem compose_tag_clear {a v : Nat} (ha : a ≤ 64) (hv : v < U64)
    (hal : v % 2 ^ a = 0) (ltag : Nat) :
    compose_tag a (compose_tag a v ltag) 0 = v := by
  apply Nat.eq_of_testBit_eq
  intro i
  rcases Nat.lt_or_ge i 64 with hi | hi
  · rw [testBit_compose_tag _ _ _ hi]
    by_cases hc : i < a
    · rw [if_pos hc]
      simp [aligned_testBit hal hc, Nat.zero_testBit]
    · rw [if_neg hc, testBit_compose_tag _ _ _ hi, if_neg hc]
  · rw [testBit_false_ge (lt_two_pow_64 (compose_tag_lt ha _ _)) hi,
      testBit_false_ge hv hi]

/-- Setting the DIRTY low tag makes the word's lowest bit 1. -/
theorem compose_tag_dirty_bit {a v : Nat} (ha1 : 1 ≤ a) :
    compose_tag a v 1 &&& 1 = 1 := by
  apply Nat.eq_of_testBit_eq
  intro i
  rw [Nat.testBit_land]
  by_cases hc : i = 0
  · subst hc
    rw [testBit_compose_tag _ _ _ (by norm_num), if_pos (by omega)]
    simp [show Nat.testBit 1 0 = true by decide]
  · have hz : Nat.testBit 1 i = false := testBit_false_ge (show (1:Nat) < 2 ^ 1 by norm_num) (by omega)
    simp [hz]

/-- C5 counterexample: with new value literally 1 (the benchmark's
`PShared::from_usize(tid)` for tid 1) and `Node` alignment 8 (`a = 3`),
the CAS succeeds and stores the word 1, but the dirty-clearing
`pcas_read` returns value 0, not 1: the value bit and the DIRTY bit are
the same bit. -/
theorem persistent_cas_s1_value_collapses :
    (Pcas.persistent_cas 3 0 0 1).1 = Except.ok 0 ∧
    (Pcas.persistent_cas 3 0 0 1).2 = 1 ∧
    (Pcas.pcas_read 3 (Pcas.persistent_cas 3 0 0 1).2).flushed = true ∧
    (Pcas.pcas_read 3 (Pcas.persistent_cas 3 0 0 1).2).value = 0 ∧
    (Pcas.pcas_read 3 (Pcas.persistent_cas 3 0 0 1).2).value ≠ 1 :=
  ⟨rfl, rfl, rfl, rfl, by decide⟩

/-- C5 (amended): for a word initially 0 and an *aligned* new value `v`
(the DIRTY bit is the lowest low-tag bit, so `new = 1` collapses onto it),
`persistent_cas` returns `Ok` and leaves the word `v` with DIRTY set; one
subsequent `pcas_read` flushes, clears the DIRTY bit, and returns `v`
with DIRTY clear; and `pcas_read` flushes exactly when the loaded word's
DIRTY bit is set. -/
theorem persistent_cas_dirty_protocol (a v : Nat) (ha1 : 1 ≤ a) (ha : a ≤ 64)
    (hv : v < U64) (hal : v % 2 ^ a = 0) :
    (Pcas.persistent_cas a 0 0 v).1 = Except.ok 0 ∧
    (Pcas.persistent_cas a 0 0 v).2 = compose_tag a v 1 ∧
    tagOf a (compose_tag a v 1) &&& Pcas.DIRTY_FLAG = 1 ∧
    (Pcas.pcas_read a (compose_tag a v 1)).flushed = true ∧
    (Pcas.pcas_read a (compose_tag a v 1)).value = v ∧
    (Pcas.pcas_read a (compose_tag a v 1)).word = v ∧
    tagOf a v &&& Pcas.DIRTY_FLAG = 0 ∧
    (∀ w, (Pcas.pcas_read a w).flushed = decide (w % 2 = 1)) := by
  have hdirty0 : tagOf a (0 : Nat) &&& Pcas.DIRTY_FLAG = 0 := by
    unfold tagOf Pcas.DIRTY_FLAG
    rw [Nat.zero_and, Nat.zero_and]
  have hread0 : Pcas.pcas_read a 0 = { value := compose_tag a 0 0, flushed := false, word := 0 } := by
    unfold Pcas.pcas_read
    rw [if_neg (by rw [show tagOf a 0 &&& Pcas.DIRTY_FLAG = 0 from hdirty0]; omega)]
  have hcas : Pcas.persistent_cas a 0 0 v = (Except.ok 0, compose_tag a v 1) := by
    unfold Pcas.persistent_cas
    rw [hread0]
    rfl
  have hd1 : tagOf a (compose_tag a v 1) &&& Pcas.DIRTY_FLAG = 1 := by
    unfold Pcas.DIRTY_FLAG
    rw [tagOf_and_one ha1, ← Nat.and_one_is_mod, compose_tag_dirty_bit ha1]
  have hclear : compose_tag a (compose_tag a v 1) 0 = v :=
    compose_tag_clear ha hv hal 1
  have hread1 : Pcas.pcas_read a (compose_tag a v 1) =
      { value := v, flushed := true, word := v } := by
    unfold Pcas.pcas_read Pcas.persistWord
    rw [if_pos (by rw [hd1]; omega), if_pos rfl, hclear]
  refine ⟨by rw [hcas], by rw [hcas], hd1, by rw [hread1], by rw [hread1], by rw [hread1],
    ?_, ?_⟩
  · unfold Pcas.DIRTY_FLAG
    rw [tagOf_and_one ha1, ← Nat.and_one_is_mod, aligned_and_one ha1 hal]
  · intro w
    unfold Pcas.pcas_read
    have hw : tagOf a w &&& Pcas.DIRTY_FLAG = w % 2 := by
      unfold Pcas.DIRTY_FLAG
      exact tagOf_and_one ha1 w
    by_cases hc : w % 2 = 1
    · rw [if_pos (by rw [hw]; omega)]
      simp [hc]
    · rw [if_neg (by rw [hw]; omega)]
      simp [hc]

/-- Witness for the amended C5 at a concrete input. -/
theorem persistent_cas_dirty_protocol_witness :
    (Pcas.persistent_cas 3 0 0 8).1 = Except.ok 0 ∧
    (Pcas.persistent_cas 3 0 0 8).2 = compose_tag 3 8 1 ∧
    tagOf 3 (compose_tag 3 8 1) &&& Pcas.DIRTY_FLAG = 1 ∧
    (Pcas.pcas_read 3 (compose_tag 3 8 1)).flushed = true ∧
    (Pcas.pcas_read 3 (compose_tag 3 8 1)).value = 8 ∧
    (Pcas.pcas_read 3 (compose_tag 3 8 1)).word = 8 ∧
    tagOf 3 (8 : Nat) &&& Pcas.DIRTY_FLAG = 0 ∧
    (∀ w, (Pcas.pcas_read 3 w).flushed = decide (w % 2 = 1)) :=
  persistent_cas_dirty_protocol 3 8 (by norm_num) (by norm_num) (by norm_num [U64])
    (by norm_num)

/-! ### Combining recovery decision (C6) -/

/-- C6 counterexample: with checkpointed activate 1 equal to the latest
state's deactivate 1 but the thread still owning the combining lock,
`apply_op` does not return a recorded value; it falls through to the
normal protocol. -/
theorem apply_op_rec_owner_falls_through :
    (1 : Nat) ≤ 1 ∧
    Comb.apply_op_rec 1 1 1 true 42 = Comb.RecResult.continueNormal :=
  ⟨le_refl 1, by decide⟩

/-- C6 (amended): with `rec` true, `apply_op` returns `peek_retval` when
`activate < deactivate[tid]`; it returns the state's `return_value[tid]`
when `activate = deactivate[tid]` and the thread does not own the
combining lock; it also returns `peek_retval` when
`activate < request[tid].activate`; otherwise it clears `rec` and
re-enters the normal register-and-combine protocol.  In particular a
thread with `activate = deactivate[tid]` that still owns the lock (a
crashed combiner) re-enters the protocol instead of returning. -/
theorem apply_op_recovery_decision (act deact req retv : Nat) (own : Bool) :
    (act < deact →
      Comb.apply_op_rec act deact req own retv = Comb.RecResult.peekRet) ∧
    (act = deact → own = false →
      Comb.apply_op_rec act deact req own retv = Comb.RecResult.stateRet retv) ∧
    (deact ≤ act → (act = deact → own = true) → act < req →
      Comb.apply_op_rec act deact req own retv = Comb.RecResult.peekRet) ∧
    (deact ≤ act → (act = deact → own = true) → req ≤ act →
      Comb.apply_op_rec act deact req own retv = Comb.RecResult.continueNormal) := by
  refine ⟨?_, ?_, ?_, ?_⟩
  · intro h
    unfold Comb.apply_op_rec
    rw [if_pos h]
  · intro h1 h2
    unfold Comb.apply_op_rec
    rw [if_neg (by omega), if_pos (by simp [h1, h2])]
  · intro h1 h2 h3
    have hcond : ¬ (act == deact && !own) = true := by
      by_cases he : act = deact
      · simp [he, h2 he]
      · simp [he]
    unfold Comb.apply_op_rec
    rw [if_neg (by omega), if_neg hcond, if_pos h3]
  · intro h1 h2 h3
    have hcond : ¬ (act == deact && !own) = true := by
      by_cases he : act = deact
      · simp [he, h2 he]
      · simp [he]
    unfold Comb.apply_op_rec
    rw [if_neg (by omega), if_neg hcond, if_neg (by omega)]

/-- Witness for the amended C6 at a concrete input. -/
theorem apply_op_recovery_decision_witness :
    Comb.apply_op_rec 2 5 0 false 7 = Comb.RecResult.peekRet :=
  (apply_op_recovery_decision 2 5 0 7 false).1 (by norm_num)

/-! ### Persist set (C2) -/

/-- C2 counterexample: after two `defer_persist` of the same `(ptr,len)`
within one pin, the set holds one entry and `unpin` issues exactly one
`persist;sfence` for it — but the set is *not* cleared by `unpin`: the
flush loop of `Local::unpin` only iterates the vec. -/
theorem unpin_does_not_clear_persist_set :
    EpochInternal.push_persist (EpochInternal.push_persist [] 100 8) 100 8 = [(100, 8)] ∧
    EpochInternal.unpin_flush [(100, 8)] =
      [EpochInternal.Ev.persistEv 100 8, EpochInternal.Ev.sfenceEv] ∧
    EpochInternal.unpin_persist_set [(100, 8)] ≠ [] :=
  ⟨rfl, rfl, by decide⟩

/-- If every ptr in the head position of the set exceeds `q`, the same
holds after inserting a pair with ptr `p > q`. -/
theorem push_persist_head (p n q : Nat) :
    ∀ v : List (Nat × Nat), q < p →
      (∀ x, ((v.map Prod.fst).head? = some x) → q < x) →
      ∀ x, (((EpochInternal.push_persist v p n).map Prod.fst).head? = some x) → q < x := by
  intro v hqp hh x hx
  match v with
  | [] =>
    simp [EpochInternal.push_persist] at hx
    omega
  | (r, m) :: rest =>
    unfold EpochInternal.push_persist at hx
    by_cases h1 : p < r
    · rw [if_pos h1] at hx
      simp at hx
      omega
    · rw [if_neg h1] at hx
      by_cases h2 : p = r
      · rw [if_pos h2] at hx
        exact hh x hx
      · rw [if_neg h2] at hx
        simp at hx
        exact hh x (by simp [hx])

/-- Sorted insertion preserves strict sortedness of the ptr keys. -/
theorem push_persist_sorted (p n : Nat) :
    ∀ v : List (Nat × Nat), List.Chain' (· < ·) (v.map Prod.fst) →
      List.Chain' (· < ·) ((EpochInternal.push_persist v p n).map Prod.fst) := by
  intro v
  induction v with
  | nil =>
    intro _
    simp [EpochInternal.push_persist]
  | cons hd rest ih =>
    obtain ⟨r, m⟩ := hd
    intro hch
    unfold EpochInternal.push_persist
    by_cases h1 : p < r
    · rw [if_pos h1]
      exact List.chain'_cons.mpr ⟨h1, hch⟩
    · rw [if_neg h1]
      by_cases h2 : p = r
      · rw [if_pos h2]
        exact hch
      · rw [if_neg h2]
        rw [List.map_cons, List.chain'_cons'] at hch
        rw [List.map_cons, List.chain'_cons']
        refine ⟨?_, ih hch.2⟩
        intro y hy
        exact push_persist_head p n r rest (by omega)
          (fun x hx => hch.1 x (Option.mem_def.mpr hx)) y (Option.mem_def.mp hy)

/-- Re-inserting the same `(ptr,len)` pair is a no-op: the pair is
inserted only once. -/
theorem push_persist_idem (p n : Nat) :
    ∀ v : List (Nat × Nat),
      EpochInternal.push_persist (EpochInternal.push_persist v p n) p n =
        EpochInternal.push_persist v p n := by
  intro v
  induction v with
  | nil =>
    simp only [EpochInternal.push_persist]
    rw [if_neg (lt_irrefl p), if_pos trivial]
  | cons hd rest ih =>
    obtain ⟨r, m⟩ := hd
    by_cases h1 : p < r
    · have e1 : EpochInternal.push_persist ((r, m) :: rest) p n = (p, n) :: (r, m) :: rest := by
        simp only [EpochInternal.push_persist]
        rw [if_pos h1]
      rw [e1]
      simp only [EpochInternal.push_persist]
      rw [if_neg (lt_irrefl p), if_pos trivial]
    · by_cases h2 : p = r
      · have e1 : EpochInternal.push_persist ((r, m) :: rest) p n = (r, m) :: rest := by
          simp only [EpochInternal.push_persist]
          rw [if_neg h1, if_pos h2]
        rw [e1, e1]
      · have e1 : EpochInternal.push_persist ((r, m) :: rest) p n =
            (r, m) :: EpochInternal.push_persist rest p n := by
          simp only [EpochInternal.push_persist]
          rw [if_neg h1, if_neg h2]
        rw [e1]
        simp only [EpochInternal.push_persist]
        rw [if_neg h1, if_neg h2, ih]

/-- C2 (amended): `defer_persist` inserts into the Local's persist set in
sorted order by ptr with set semantics (a repeated ptr is inserted only
once); on unpin every entry of the set is flushed with `persist` followed
by `sfence` — so repeated `defer_persist` of the same `{p,n}` within one
pin (starting from an empty set) issues exactly one `persist(p,n)` on
release — but the set is left in place: `Local::unpin` does not clear it. -/
theorem defer_persist_set_behaviour (p n : Nat) (v : List (Nat × Nat)) :
    (List.Chain' (· < ·) (v.map Prod.fst) →
      List.Chain' (· < ·) ((EpochInternal.push_persist v p n).map Prod.fst)) ∧
    EpochInternal.push_persist (EpochInternal.push_persist v p n) p n =
      EpochInternal.push_persist v p n ∧
    EpochInternal.push_persist [] p n = [(p, n)] ∧
    EpochInternal.unpin_flush (EpochInternal.push_persist [] p n) =
      [EpochInternal.Ev.persistEv p n, EpochInternal.Ev.sfenceEv] ∧
    EpochInternal.unpin_persist_set v = v :=
  ⟨push_persist_sorted p n v, push_persist_idem p n v, rfl, rfl, rfl⟩

/-- Witness for the amended C2 at a concrete input. -/
theorem defer_persist_set_behaviour_witness :
    List.Chain' (· < ·) ((EpochInternal.push_persist [(1, 4), (7, 2)] 5 8).map Prod.fst) :=
  (defer_persist_set_behaviour 5 8 [(1, 4), (7, 2)]).1
    (by norm_num [List.chain'_cons, List.chain'_singleton])

/-! ### Bag de-duplication (C4) -/

/-- C4 counterexample: `Vec::dedup_by` only merges *consecutive*
duplicates.  A bag whose keys are `[1, 2, 1]` keeps both records with
key 1, so two records with the same key survive into the sealed bags. -/
theorem dedup_as_bags_keeps_separated_duplicates :
    EpochInternal.dedup_as_bags
      [⟨some 1, 0⟩, ⟨some 2, 1⟩, ⟨some 1, 2⟩] =
      [[⟨some 1, 2⟩, ⟨some 2, 1⟩, ⟨some 1, 0⟩]] ∧
    ((EpochInternal.dedup_as_bags [⟨some 1, 0⟩, ⟨some 2, 1⟩, ⟨some 1, 2⟩]).map
        (fun b => b.countP (fun d => d.key == some 1))).sum = 2 := by
  refine ⟨rfl, ?_⟩
  decide

/-- The survivor list of the `dedup_by` scan never keeps two adjacent
records that the predicate would merge. -/
theorem dedup_run_chain (same : EpochInternal.Deferred → EpochInternal.Deferred → Bool) :
    ∀ (l : List EpochInternal.Deferred) (b : EpochInternal.Deferred),
      List.Chain' (fun x y => same y x = false) (b :: EpochInternal.dedup_run same b l) := by
  intro l
  induction l with
  | nil =>
    intro b
    simp [EpochInternal.dedup_run]
  | cons a rest ih =>
    intro b
    simp only [EpochInternal.dedup_run]
    by_cases hs : same a b = true
    · rw [if_pos hs]
      exact ih b
    · rw [if_neg hs]
      have hc := ih a
      exact List.chain'_cons.mpr ⟨by simpa using hs, hc⟩

/-- The slicing loop preserves the deferred records: joining the sealed
bags gives back the (reversed, de-duplicated) input. -/
theorem seal_loop_join :
    ∀ (l new : List EpochInternal.Deferred) (bags : List (List EpochInternal.Deferred)),
      (EpochInternal.seal_loop l new bags).flatten = bags.flatten ++ new ++ l := by
  intro l
  induction l with
  | nil =>
    intro new bags
    simp only [EpochInternal.seal_loop]
    by_cases he : new.isEmpty
    · rw [if_pos he]
      simp [List.isEmpty_iff.mp he]
    · rw [if_neg he]
      simp
  | cons d rest ih =>
    intro new bags
    simp only [EpochInternal.seal_loop]
    by_cases hlen : new.length < EpochInternal.MAX_OBJECTS
    · rw [if_pos hlen, ih]
      simp
    · rw [if_neg hlen, ih]
      simp

/-- C4 (amended): `dedup_as_bags` de-duplicates only *consecutive*
records with equal `Some` keys (keeping the first of each run): in the
de-duplicated list no two adjacent records have the same `Some` key, and
the sealed bags together contain exactly the records of that list (in
reverse order).  Records with the same key that are separated by another
key both survive. -/
theorem dedup_as_bags_adjacent_only (l : List EpochInternal.Deferred) :
    List.Chain' (fun x y => EpochInternal.same_key y x = false)
      (EpochInternal.dedup_by EpochInternal.same_key l) ∧
    (EpochInternal.dedup_as_bags l).flatten =
      (EpochInternal.dedup_by EpochInternal.same_key l).reverse := by
  constructor
  · match l with
    | [] => simp [EpochInternal.dedup_by]
    | x :: xs =>
      simp only [EpochInternal.dedup_by]
      exact dedup_run_chain EpochInternal.same_key xs x
  · unfold EpochInternal.dedup_as_bags
    rw [seal_loop_join]
    simp

/-! ### Collection of expired bags (C7) -/

/-- Behaviour of the pop loop of `Global::collect` for any step budget:
every dropped bag was expired, at most `steps` bags are dropped, the
dropped bags are a prefix of the queue, and when the budget was not
exhausted the head of the remaining queue is not expired. -/
theorem collect_loop_spec (g : Nat) :
    ∀ (steps : Nat) (q : List EpochInternal.SealedBag),
      (∀ sb ∈ (EpochInternal.collect_loop g steps q).1,
        EpochInternal.is_expired g sb.epoch = true) ∧
      (EpochInternal.collect_loop g steps q).1.length ≤ steps ∧
      (EpochInternal.collect_loop g steps q).1 ++ (EpochInternal.collect_loop g steps q).2 = q ∧
      ((EpochInternal.collect_loop g steps q).1.length < steps →
        ∀ sb, (EpochInternal.collect_loop g steps q).2.head? = some sb →
          EpochInternal.is_expired g sb.epoch = false) := by
  intro steps
  induction steps with
  | zero =>
    intro q
    simp [EpochInternal.collect_loop]
  | succ k ih =>
    intro q
    match q with
    | [] => simp [EpochInternal.collect_loop]
    | sb :: rest =>
      simp only [EpochInternal.collect_loop]
      by_cases he : EpochInternal.is_expired g sb.epoch = true
      · rw [if_pos he]
        obtain ⟨ih1, ih2, ih3, ih4⟩ := ih rest
        refine ⟨?_, ?_, ?_, ?_⟩
        · intro x hx
          simp only [List.mem_cons] at hx
          rcases hx with hx | hx
          · rw [hx]
            exact he
          · exact ih1 x hx
        · simpa using ih2
        · simpa using ih3
        · intro hlen x hx
          exact ih4 (by simpa using hlen) x hx
      · rw [if_neg he]
        refine ⟨by simp, by simp, by simp, ?_⟩
        intro _ x hx
        simp only [List.head?] at hx
        cases hx
        simpa using he

/-- C7: a `collect` call (normal build) drops only SealedBags whose
sealing epoch is at least 2 behind the current global epoch under the
62-bit wrapping subtraction, drops at most `COLLECT_STEPS = 8` bags,
removes them from the front of the queue, and stops early at the first
unexpired head. -/
theorem collect_drops_expired (g : Nat) (q : List EpochInternal.SealedBag) :
    (∀ sb ∈ (EpochInternal.collect g q).1,
      2 ≤ EpochInternal.wrapping_sub g sb.epoch) ∧
    (EpochInternal.collect g q).1.length ≤ 8 ∧
    (EpochInternal.collect g q).1 ++ (EpochInternal.collect g q).2 = q ∧
    ((EpochInternal.collect g q).1.length < 8 →
      ∀ sb, (EpochInternal.collect g q).2.head? = some sb →
        ¬ 2 ≤ EpochInternal.wrapping_sub g sb.epoch) := by
  obtain ⟨h1, h2, h3, h4⟩ := collect_loop_spec g EpochInternal.COLLECT_STEPS q
  refine ⟨?_, h2, h3, ?_⟩
  · intro sb hsb
    have := h1 sb hsb
    simpa [EpochInternal.is_expired] using this
  · intro hlen sb hsb
    have := h4 hlen sb hsb
    simpa [EpochInternal.is_expired] using this

/-- Witness for C7 at a concrete input: with global epoch 10 and a queue
whose head was sealed at epoch 9, nothing is dropped and the head is not
expired. -/
theorem collect_drops_expired_witness :
    ¬ 2 ≤ EpochInternal.wrapping_sub 10 9 :=
  (collect_drops_expired 10 [⟨9, 0⟩]).2.2.2 (by decide) ⟨9, 0⟩ (by decide)

/-! ### PMwCAS (C3) -/

/-- C3 (code bug): `pmwcas_inner`, run to completion with no
interference on a one-word descriptor (target word 100 holding old value
5, new value 9, pool base 0, status `UNDECIDED`), returns `false` and
leaves
* `status = SUCCEEDED ||| DIRTY_FLAG = 3` — decided *successful*, but the
  DIRTY flag is never cleared (the claim requires it cleared), and
* the target word holding the *old* value with a DIRTY high-tag flag
  (`compose_high_tag 1 5`), not the new value 9 that a Succeeded status
  requires, and not the plain old value either.

The cause: `ok_or!(md.status.compare_exchange(UNDECIDED, st | DIRTY), e, e)`
binds `cur_st` to the compare-exchange's *previous* value — `UNDECIDED`
on success — so the `cur_st & DIRTY` cleanup and the `cur_st == SUCCEEDED`
final-value installation never see the decided status. -/
theorem pmwcas_inner_bug :
    (Pcas.pmwcas_inner 0 Pcas.bugDesc 10 Pcas.bugState).map
      (fun r => (r.1, r.2.status, r.2.mem 100)) =
      some (false, Pcas.SUCCEEDED ||| Pcas.DIRTY_FLAG, compose_high_tag Pcas.DIRTY_FLAG 5) ∧
    Pcas.SUCCEEDED ||| Pcas.DIRTY_FLAG ≠ Pcas.SUCCEEDED ∧
    Pcas.SUCCEEDED ||| Pcas.DIRTY_FLAG ≠ Pcas.FAILED ∧
    compose_high_tag Pcas.DIRTY_FLAG 5 ≠ Pcas.bugWord.new_value ∧
    compose_high_tag Pcas.DIRTY_FLAG 5 ≠ Pcas.bugWord.old_value :=
  ⟨rfl, by decide, by decide, by decide, by decide⟩

end Memento
